import Mathlib

/-!
Verification development for the natural-language task manager's parsing core
(`src/utils/nlpParser.ts`, `src/utils/meetingMinutesParser.ts`,
`src/utils/openaiService.ts`, and the orchestrating components
`MeetingMinutesParser.tsx` / `TaskInput.tsx`).

The JavaScript source is shallowly embedded:
* strings are `List Char` (`Chars`); `String.prototype.toLowerCase` is
  modelled ASCII-wise (the source only ever compares ASCII keywords);
* `Date` is a normalized civil date-time record `JSDate`; the runtime's
  local time zone is modelled as UTC, so `toISOString` prints the fields
  directly (none of the verified claims depends on a non-zero offset);
* each regular-expression operation of the source is modelled by a
  dedicated scanning function with JS leftmost-match semantics;
* the implicit wall clock (`new Date()`) is an explicit `now : JSDate`
  parameter; all `new Date()` calls inside one parse are the same instant.
-/

/-! ## Characters and strings -/

abbrev Chars := List Char

/-- Convert a Lean string literal to the `Chars` representation. -/
def cs (s : String) : Chars := s.data

/-- ASCII uppercase letter (the source's `[A-Z]`), by code point. -/
def isUpperA (c : Char) : Bool := 65 ≤ c.toNat && c.toNat ≤ 90

/-- ASCII lowercase letter (the source's `[a-z]`), by code point. -/
def isLowerA (c : Char) : Bool := 97 ≤ c.toNat && c.toNat ≤ 122

/-- ASCII letter (the source's `[a-zA-Z]`). -/
def isAlphaA (c : Char) : Bool := isUpperA c || isLowerA c

/-- ASCII digit (the source's `\d`), by code point. -/
def isDigitA (c : Char) : Bool := 48 ≤ c.toNat && c.toNat ≤ 57

/-- JS regex `\s` restricted to the whitespace the inputs contain
(space, tab, line feed, carriage return). -/
def isWsA (c : Char) : Bool :=
  c.toNat = 32 || c.toNat = 9 || c.toNat = 10 || c.toNat = 13

/-- JS regex word character `\w` = `[A-Za-z0-9_]`. -/
def isWordA (c : Char) : Bool := isAlphaA c || isDigitA c || c = '_'

/-- ASCII lowering of one character, mirroring what
`String.prototype.toLowerCase` does on the ASCII range. -/
def lowerA (c : Char) : Char :=
  if isUpperA c then Char.ofNat (c.toNat + 32) else c

/-- `text.toLowerCase()` on the embedded strings. -/
def toLowerStr (s : Chars) : Chars := s.map lowerA

/-- All-whitespace test (JS truthiness of `s.trim()`). -/
def allWs (s : Chars) : Bool := s.all isWsA

/-- `String.prototype.trim`. -/
def trimWs (s : Chars) : Chars :=
  (s.dropWhile isWsA).reverse.dropWhile isWsA |>.reverse

/-- Does `pat` occur starting exactly at the head of `s`? -/
def startsWithCs : Chars → Chars → Bool
  | _, [] => true
  | [], _ :: _ => false
  | c :: s, p :: ps => c = p && startsWithCs s ps

/-- Index of the first occurrence of `pat` in `s`
(JS `String.prototype.indexOf`, `none` for `-1`). -/
def idxOfSub (s pat : Chars) : Option Nat :=
  go s 0
where
  go : Chars → Nat → Option Nat
    | [], i => if pat = [] then some i else none
    | c :: rest, i =>
      if startsWithCs (c :: rest) pat then some i else go rest (i + 1)

/-- JS `String.prototype.includes`. -/
def containsSub (s pat : Chars) : Bool := (idxOfSub s pat).isSome

/-! ## The JS `Date` model

A normalized proleptic-Gregorian civil date plus a time of day.  The
runtime time zone is modelled as UTC, so the getters, the setters and
`toISOString` all read the same fields. -/

structure DateOnly where
  y : Int
  mo : Nat
  d : Nat
  deriving Repr, DecidableEq

structure JSDate where
  y : Int
  mo : Nat
  d : Nat
  hh : Nat
  mi : Nat
  ss : Nat
  ms : Nat
  deriving Repr, DecidableEq

def JSDate.dateOnly (t : JSDate) : DateOnly := ⟨t.y, t.mo, t.d⟩

def isLeap (y : Int) : Bool := y % 4 = 0 && (y % 100 ≠ 0 || y % 400 = 0)

/-- Days in month `mo` (0 = January … 11 = December) of year `y`. -/
def daysInMonth (y : Int) (mo : Nat) : Nat :=
  if mo = 1 then (if isLeap y then 29 else 28)
  else if mo = 3 || mo = 5 || mo = 8 || mo = 10 then 30
  else 31

/-- Successor day in the civil calendar. -/
def nextDayD (x : DateOnly) : DateOnly :=
  if x.d < daysInMonth x.y x.mo then ⟨x.y, x.mo, x.d + 1⟩
  else if x.mo < 11 then ⟨x.y, x.mo + 1, 1⟩
  else ⟨x.y + 1, 0, 1⟩

/-- Predecessor day in the civil calendar. -/
def prevDayD (x : DateOnly) : DateOnly :=
  if 2 ≤ x.d then ⟨x.y, x.mo, x.d - 1⟩
  else if 1 ≤ x.mo then ⟨x.y, x.mo - 1, daysInMonth x.y (x.mo - 1)⟩
  else ⟨x.y - 1, 11, 31⟩

def addDaysD (x : DateOnly) : Nat → DateOnly
  | 0 => x
  | k + 1 => addDaysD (nextDayD x) k

def subDaysD (x : DateOnly) : Nat → DateOnly
  | 0 => x
  | k + 1 => subDaysD (prevDayD x) k

/-- JS `date.setDate(n)` on the date part: day-of-month `n` counted from
the first of the current month, with calendar normalization (day 0 is the
last day of the previous month, day 32 of January is February 1, …). -/
def setDayOfMonth (n : Int) (y : Int) (mo : Nat) : DateOnly :=
  if 1 ≤ n then addDaysD ⟨y, mo, 1⟩ (n - 1).toNat
  else subDaysD ⟨y, mo, 1⟩ (1 - n).toNat

def jsSetDate (n : Int) (t : JSDate) : JSDate :=
  let x := setDayOfMonth n t.y t.mo
  { t with y := x.y, mo := x.mo, d := x.d }

/-- JS `date.setDate(date.getDate() + k)`. -/
def jsAddDays (k : Int) (t : JSDate) : JSDate := jsSetDate ((t.d : Int) + k) t

/-- JS `date.setMonth(m)`: month overflow rolls the year (floor division),
the day of month is kept and re-normalized in the new month. -/
def jsSetMonth (m : Int) (t : JSDate) : JSDate :=
  let y' : Int := t.y + m / 12
  let mo' : Nat := (m % 12).toNat
  let x := setDayOfMonth t.d y' mo'
  { t with y := x.y, mo := x.mo, d := x.d }

/-- JS `date.setFullYear(y)`: the day of month is kept and re-normalized
(e.g. Feb 29 of a leap year maps to Mar 1 of a common year). -/
def jsSetFullYear (y' : Int) (t : JSDate) : JSDate :=
  let x := setDayOfMonth t.d y' t.mo
  { t with y := x.y, mo := x.mo, d := x.d }

/-- JS `date.setHours(h, m, 0, 0)`.  In the range the source validates
(`h ≤ 23`, `m ≤ 59`) this is a plain field update; larger values overflow
into following days exactly as in JS. -/
def jsSetHours (h mi : Nat) (t : JSDate) : JSDate :=
  if h ≤ 23 && mi ≤ 59 then { t with hh := h, mi := mi, ss := 0, ms := 0 }
  else
    let total := h * 60 + mi
    let t' := jsSetDate ((t.d : Int) + (total / 1440 : Nat)) t
    { t' with hh := total % 1440 / 60, mi := total % 1440 % 60, ss := 0, ms := 0 }

/-- Comparison of the date-only parts (`dateWithoutTime < nowWithoutTime`
in the source; JS compares the epoch instants of the two midnights, which
for normalized civil dates is the lexicographic (year, month, day) order). -/
def ltD (a b : DateOnly) : Bool :=
  a.y < b.y || (a.y = b.y && (a.mo < b.mo || (a.mo = b.mo && a.d < b.d)))

/-- Full date-time comparison (`date < now` in the source). -/
def ltT (a b : JSDate) : Bool :=
  ltD a.dateOnly b.dateOnly ||
    (a.dateOnly = b.dateOnly &&
      (a.hh < b.hh || (a.hh = b.hh && (a.mi < b.mi ||
        (a.mi = b.mi && (a.ss < b.ss || (a.ss = b.ss && a.ms < b.ms)))))))

/-- JS `getDay()` (0 = Sunday … 6 = Saturday), by Zeller's congruence. -/
def weekdayOf (x : DateOnly) : Nat :=
  let m : Int := if x.mo + 1 ≤ 2 then (x.mo : Int) + 13 else (x.mo : Int) + 1
  let yy : Int := if x.mo + 1 ≤ 2 then x.y - 1 else x.y
  let k : Int := yy % 100
  let j : Int := yy / 100
  let h : Int := ((x.d : Int) + (13 * (m + 1)) / 5 + k + k / 4 + j / 4 + 5 * j) % 7
  (((h + 6) % 7).toNat)

/-- A normalized civil date (what every real `Date` satisfies). -/
def ValidD (x : DateOnly) : Prop :=
  x.mo ≤ 11 ∧ 1 ≤ x.d ∧ x.d ≤ daysInMonth x.y x.mo

/-- A well-formed wall-clock instant. -/
def ValidDT (t : JSDate) : Prop :=
  ValidD t.dateOnly ∧ t.hh ≤ 23 ∧ t.mi ≤ 59 ∧ t.ss ≤ 59 ∧ t.ms ≤ 999

instance (x : DateOnly) : Decidable (ValidD x) := by
  unfold ValidD; infer_instance

instance (t : JSDate) : Decidable (ValidDT t) := by
  unfold ValidDT; infer_instance

/-! ## Generic scanners (JS leftmost-match regex semantics) -/

/-- Try an anchored matcher at every position, left to right
(JS regex search without the `g` flag). -/
def scanFirst (f : Chars → Option α) : Chars → Option α
  | [] => f []
  | c :: rest =>
    match f (c :: rest) with
    | some r => some r
    | none => scanFirst f rest

/-- Like `scanFirst` but the matcher also sees the previous character,
for `\b` word-boundary checks. -/
def scanFirstB (f : Option Char → Chars → Option α) :
    Option Char → Chars → Option α
  | prev, [] => f prev []
  | prev, c :: rest =>
    match f prev (c :: rest) with
    | some r => some r
    | none => scanFirstB f (some c) rest

/-- Split off the longest run satisfying `p` (greedy character class). -/
def spanP (p : Char → Bool) (s : Chars) : Chars × Chars :=
  (s.takeWhile p, s.dropWhile p)

/-- A word boundary `\b` on the left of a word character. -/
def lboundB (prev : Option Char) : Bool :=
  match prev with
  | none => true
  | some c => !isWordA c

/-- A word boundary `\b` on the right of a word character: the next
character (if any) is not a word character. -/
def rboundB (rest : Chars) : Bool :=
  match rest with
  | [] => true
  | c :: _ => !isWordA c

/-- Numeric value of an ASCII digit. -/
def dvalA (c : Char) : Nat := c.toNat - 48

/-- Anchored one-digit number (`\d`). -/
def pD1 (s : Chars) : Option (Nat × Chars) :=
  match s with
  | c :: r => if isDigitA c then some (dvalA c, r) else none
  | [] => none

/-- Anchored two-digit number (`\d{2}`, also the greedy arm of `\d{1,2}`). -/
def pD2 (s : Chars) : Option (Nat × Chars) :=
  match s with
  | c :: c' :: r =>
    if isDigitA c && isDigitA c' then some (dvalA c * 10 + dvalA c', r) else none
  | _ => none

/-! ## Embedding of `src/utils/nlpParser.ts` -/

inductive Priority | P1 | P2 | P3 | P4
  deriving Repr, DecidableEq

structure ParsedTask where
  title : Chars
  assignee : Chars
  dueDate : Chars
  priority : Priority
  dueDateFormatted : Chars
  dueTimeFormatted : Option Chars
  timeSpecified : Bool
  priorityText : Chars
  priorityReason : Chars
  context : Chars
  deriving Repr, DecidableEq

/-- Decimal digits of a natural number (fuel-based so that the kernel can
evaluate it; `n + 1` units of fuel always suffice). -/
def natDigitsGo : Nat → Nat → Chars
  | 0, _ => []
  | fuel + 1, n =>
    if n < 10 then [Char.ofNat (48 + n)]
    else natDigitsGo fuel (n / 10) ++ [Char.ofNat (48 + n % 10)]

def natDigits (n : Nat) : Chars := natDigitsGo (n + 1) n

/-- Zero-padded decimal rendering (width `w`). -/
def padNum (w n : Nat) : Chars :=
  let ds := natDigits n
  List.replicate (w - ds.length) '0' ++ ds

/-- JS `Date.prototype.toISOString` under the UTC-timezone model
(years 1000–9999, the only range the embedded flows produce). -/
def toIsoChars (t : JSDate) : Chars :=
  padNum 4 t.y.toNat ++ [ '-' ] ++ padNum 2 (t.mo + 1) ++ [ '-' ] ++ padNum 2 t.d
    ++ [ 'T' ] ++ padNum 2 t.hh ++ [ ':' ] ++ padNum 2 t.mi ++ [ ':' ] ++ padNum 2 t.ss
    ++ [ '.' ] ++ padNum 3 t.ms ++ [ 'Z' ]

def monthLongNames : List Chars :=
  [cs "January", cs "February", cs "March", cs "April", cs "May", cs "June",
   cs "July", cs "August", cs "September", cs "October", cs "November", cs "December"]

/-- `toLocaleDateString('en-US', { day: 'numeric', month: 'long', year: 'numeric' })`. -/
def formatDateLong (t : JSDate) : Chars :=
  (monthLongNames.getD t.mo []) ++ [ ' ' ] ++ natDigits t.d ++ [ ',', ' ' ]
    ++ natDigits t.y.toNat

/-- `toLocaleTimeString('en-US', { hour: 'numeric', minute: '2-digit', hour12: true })`. -/
def formatTime12 (t : JSDate) : Chars :=
  let h12 := if t.hh % 12 = 0 then 12 else t.hh % 12
  natDigits h12 ++ [ ':' ] ++ padNum 2 t.mi ++ [ ' ' ]
    ++ (if t.hh < 12 then cs "AM" else cs "PM")

/-- `formatDateForDisplay` of `nlpParser.ts` (lines 25–40). -/
def formatDateForDisplay (t : JSDate) (timeSpecified : Bool) : Chars × Option Chars :=
  (formatDateLong t, if timeSpecified then some (formatTime12 t) else none)

/-- `ensureFutureDate` of `nlpParser.ts` (lines 4–22), with the implicit
`new Date()` made explicit as `now`.  The inner same-day branch is kept
verbatim from the source even though it sits under the strict `<` test. -/
def ensureFutureDate (now date : JSDate) : JSDate :=
  if ltD date.dateOnly now.dateOnly then
    if date.dateOnly = now.dateOnly && ltT date now then jsAddDays 1 date
    else jsSetFullYear (date.y + 1) date
  else date

def stopWordsL : List Chars :=
  [cs "for", cs "by", cs "with", cs "p1", cs "p2", cs "p3", cs "p4",
   cs "tomorrow", cs "today", cs "next week", cs "monday", cs "tuesday",
   cs "wednesday", cs "thursday", cs "friday", cs "saturday", cs "sunday"]

def commonNamesL : List Chars :=
  [cs "john", cs "jane", cs "alex", cs "sarah", cs "mike", cs "lisa", cs "tom",
   cs "anna", cs "david", cs "emma", cs "aman", cs "rajeev", cs "priya", cs "raj",
   cs "neha", cs "amit", cs "sanya", cs "rohit"]

/-- Title-extraction loop of `parseNaturalLanguage` (lines 46–58): cut the
original input before the first listed word found at an index `> 0` in the
lowercased text; words are tried in list order. -/
def titleOf (input text : Chars) : Chars :=
  go (stopWordsL ++ commonNamesL)
where
  go : List Chars → Chars
    | [] => input
    | w :: ws =>
      match idxOfSub text w with
      | some i => if 0 < i then trimWs (input.take i) else go ws
      | none => go ws

/-- Anchored match of `(?:for|with)\s+([a-zA-Z]+(?:\s+[a-zA-Z]+)?)`,
returning the captured group (one word, or two words with the original
whitespace between them). -/
def forWithAt (s : Chars) : Option Chars :=
  let rest? :=
    if startsWithCs s (cs "for") then some (s.drop 3)
    else if startsWithCs s (cs "with") then some (s.drop 4) else none
  match rest? with
  | none => none
  | some r0 =>
    let (ws1, r1) := spanP isWsA r0
    if ws1 = [] then none
    else
      let (w1, r2) := spanP isAlphaA r1
      if w1 = [] then none
      else
        let (ws2, r3) := spanP isWsA r2
        if ws2 = [] then some w1
        else
          let (w2, _) := spanP isAlphaA r3
          if w2 = [] then some w1 else some (w1 ++ ws2 ++ w2)

def forWithFind (s : Chars) : Option Chars := scanFirst forWithAt s

/-- Anchored match of `\b([A-Z][a-z]+(?:\s+[A-Z][a-z]+)?)\b` at one
position (`prev` is the character before the position). -/
def capNameAt (prev : Option Char) (s : Chars) : Option Chars :=
  if !lboundB prev then none
  else
    match s with
    | [] => none
    | c :: r =>
      if !isUpperA c then none
      else
        let (ls, r2) := spanP isLowerA r
        if ls = [] then none
        else
          let second :=
            let (ws2, r3) := spanP isWsA r2
            if ws2 = [] then none
            else
              match r3 with
              | c2 :: r4 =>
                if isUpperA c2 then
                  let (ls2, r5) := spanP isLowerA r4
                  if ls2 ≠ [] && rboundB r5 then
                    some (c :: ls ++ ws2 ++ c2 :: ls2)
                  else none
                else none
              | [] => none
          match second with
          | some m => some m
          | none => if rboundB r2 then some (c :: ls) else none

def capNameFind (s : Chars) : Option Chars := scanFirstB capNameAt none s

/-- Assignee extraction of `parseNaturalLanguage` (lines 60–82): the
`for`/`with` pattern is tried on the lowercased text; the capitalized-name
pattern is also tried on the lowercased text, and only if it matches there
are the capitalized names of the original input consulted. -/
def assigneeOf (text input : Chars) : Chars :=
  match forWithFind text with
  | some nm => trimWs nm
  | none =>
    match capNameFind text with
    | some _ =>
      match capNameFind input with
      | some nm => nm
      | none => []
    | none => []

/-- Try the `am`/`pm` literal after optional whitespace; `some true` is
`pm`.  `required` distinguishes the two time patterns of the source. -/
def pAmPm (required : Bool) (s : Chars) : Option (Option Bool) :=
  let r := s.dropWhile isWsA
  if startsWithCs r (cs "am") then some (some false)
  else if startsWithCs r (cs "pm") then some (some true)
  else if required then none else some none

/-- Optional `:(\d{2})` group (greedy, exactly two digits). -/
def pColonMM (s : Chars) : Option (Nat × Chars) :=
  match s with
  | ':' :: c :: c' :: r =>
    if isDigitA c && isDigitA c' then some (dvalA c * 10 + dvalA c', r) else none
  | _ => none

/-- Anchored match of `(\d{1,2})(?::(\d{2}))?\s*(am|pm)` /
`(\d{1,2})(?::(\d{2}))?(?:\s*(am|pm))?` with JS backtracking order:
two hour digits before one, the colon group taken before skipped.
The leading `(?:at\s+)?` of the source patterns binds no group and does
not change which digits are matched first, so it is not modelled. -/
def timeMatchAt (required : Bool) (s : Chars) : Option (Nat × Nat × Option Bool) :=
  (pD2 s).bind (fun (h, r) => afterHour required h r) <|>
    (pD1 s).bind (fun (h, r) => afterHour required h r)
where
  afterHour (required : Bool) (h : Nat) (r : Chars) : Option (Nat × Nat × Option Bool) :=
    ((pColonMM r).bind fun (mi, r2) => (pAmPm required r2).map fun ap => (h, mi, ap)) <|>
      ((pAmPm required r).map fun ap => (h, 0, ap))

/-- The sequential AM/PM adjustment of lines 105–106: `pm` below 12 adds
12, then `am` at (the possibly adjusted) 12 becomes 0. -/
def adjustHour (h : Nat) (ap : Option Bool) : Nat :=
  let h1 := if ap = some true && h < 12 then h + 12 else h
  if ap = some false && h1 = 12 then 0 else h1

/-- The hour validation of lines 108–112: only in-range values are
accepted; out-of-range values leave the 17:00 default in place. -/
def validateTime (r : Nat × Nat × Option Bool) : (Nat × Nat) × Bool :=
  if adjustHour r.1 r.2.2 ≤ 23 && r.2.1 ≤ 59 then ((adjustHour r.1 r.2.2, r.2.1), true)
  else ((17, 0), false)

/-- Time extraction of `parseNaturalLanguage` (lines 88–115): first
pattern that matches wins and the loop breaks even if the matched value
is out of range (falling back to the 17:00 default, `timeSpecified`
stays false). -/
def timeOf (text : Chars) : (Nat × Nat) × Bool :=
  match scanFirst (timeMatchAt true) text with
  | some r => validateTime r
  | none =>
    match scanFirst (timeMatchAt false) text with
    | some r => validateTime r
    | none => ((17, 0), false)

def monthNamesL : List Chars :=
  [cs "january", cs "february", cs "march", cs "april", cs "may", cs "june",
   cs "july", cs "august", cs "september", cs "october", cs "november", cs "december"]

/-- Month-name alternation: index of the name the text starts with. -/
def pMonthName (s : Chars) : Option (Nat × Chars) :=
  go monthNamesL 0
where
  go : List Chars → Nat → Option (Nat × Chars)
    | [], _ => none
    | nm :: rest, i =>
      if startsWithCs s nm then some (i, s.drop nm.length) else go rest (i + 1)

/-- Optional ordinal suffix `(?:st|nd|rd|th)?`. -/
def dropOrd (s : Chars) : Chars × Bool :=
  if startsWithCs s (cs "st") || startsWithCs s (cs "nd") ||
      startsWithCs s (cs "rd") || startsWithCs s (cs "th") then (s.drop 2, true)
  else (s, false)

/-- Anchored `(\d{1,2})(?:st|nd|rd|th)?\s+(january|…|december)`:
returns (day, month index). -/
def mn1At (s : Chars) : Option (Nat × Nat) :=
  (pD2 s).bind (fun (d, r) => afterDay d r) <|> (pD1 s).bind (fun (d, r) => afterDay d r)
where
  afterDay (d : Nat) (r : Chars) : Option (Nat × Nat) :=
    (let (r1, took) := dropOrd r
     if took then restMonth d r1 else none) <|> restMonth d r
  restMonth (d : Nat) (r : Chars) : Option (Nat × Nat) :=
    let (ws, r2) := spanP isWsA r
    if ws = [] then none else (pMonthName r2).map fun (m, _) => (d, m)

/-- Anchored `(january|…|december)\s+(\d{1,2})(?:st|nd|rd|th)?`:
returns (month index, day). -/
def mn2At (s : Chars) : Option (Nat × Nat) :=
  (pMonthName s).bind fun (m, r) =>
    let (ws, r2) := spanP isWsA r
    if ws = [] then none
    else ((pD2 r2).map fun (d, _) => (m, d)) <|> ((pD1 r2).map fun (d, _) => (m, d))

/-- Anchored `(\d{1,2})\/(\d{1,2})`. -/
def mmddAt (s : Chars) : Option (Nat × Nat) :=
  (pD2 s).bind (fun (a, r) => afterSlash a r) <|>
    (pD1 s).bind (fun (a, r) => afterSlash a r)
where
  afterSlash (a : Nat) (r : Chars) : Option (Nat × Nat) :=
    match r with
    | '/' :: r2 => ((pD2 r2).map fun (b, _) => (a, b)) <|> ((pD1 r2).map fun (b, _) => (a, b))
    | _ => none

def dayNamesL : List Chars :=
  [cs "sunday", cs "monday", cs "tuesday", cs "wednesday", cs "thursday",
   cs "friday", cs "saturday"]

/-- Anchored weekday-name alternation, returning the index in the
source's `dayNames` array (0 = sunday … 6 = saturday). -/
def weekdayAt (s : Chars) : Option Nat :=
  go dayNamesL 0
where
  go : List Chars → Nat → Option Nat
    | [], _ => none
    | nm :: rest, i => if startsWithCs s nm then some i else go rest (i + 1)

/-- Date resolution of `parseNaturalLanguage` (lines 84–198 minus the time
handling): relative keywords first, then the `datePatterns` loop in source
order (month-name day, day month-name, MM/DD, weekday), then the
always-run `setHours` with the extracted (or default) time and the final
`ensureFutureDate`.  Returns the resolved date and `timeSpecified`. -/
def nlpRawDate (text : Chars) (now : JSDate) : JSDate :=
  if containsSub text (cs "tomorrow") then jsAddDays 1 now
  else if containsSub text (cs "today") then now
  else if containsSub text (cs "next week") then jsAddDays 7 now
  else
    match scanFirst mn1At text with
    | some (day, mo) => ensureFutureDate now (jsSetDate day (jsSetMonth mo now))
    | none =>
      match scanFirst mn2At text with
      | some (mo, day) => ensureFutureDate now (jsSetDate day (jsSetMonth mo now))
      | none =>
        match scanFirst mmddAt text with
        | some (m1, d1) =>
          ensureFutureDate now (jsSetDate d1 (jsSetMonth ((m1 : Int) - 1) now))
        | none =>
          match scanFirst weekdayAt text with
          | some target =>
            let wd := weekdayOf now.dateOnly
            let j := (target + 7 - wd) % 7
            jsAddDays (if j = 0 then 7 else j) now
          | none => jsSetHours 17 0 now

def nlpDueDate (text : Chars) (now : JSDate) : JSDate × Bool :=
  let et := timeOf text
  (ensureFutureDate now (jsSetHours et.1.1 et.1.2 (nlpRawDate text now)), et.2)

/-- First `p` followed by a digit 1–4 (the regex `/p([1-4])/i` on the
lowercased text). -/
def scanPTok (s : Chars) : Option Nat :=
  scanFirst pTokAt s
where
  pTokAt : Chars → Option Nat
    | 'p' :: c :: _ => if '1' ≤ c && c ≤ '4' then some (dvalA c) else none
    | _ => none

def priorityOfDigit (k : Nat) : Priority :=
  if k = 1 then .P1 else if k = 2 then .P2 else if k = 3 then .P3 else .P4

/-- Priority extraction of `parseNaturalLanguage` (lines 183–194). -/
def nlpPriority (text : Chars) : Priority :=
  match scanPTok text with
  | some k => priorityOfDigit k
  | none =>
    if containsSub text (cs "urgent") || containsSub text (cs "asap") ||
        containsSub text (cs "emergency") then .P1
    else if containsSub text (cs "important") || containsSub text (cs "high priority") then .P2
    else if containsSub text (cs "low priority") || containsSub text (cs "whenever") then .P4
    else .P3

def priorityTextOf : Priority → Chars
  | .P1 => cs "High"
  | .P2 => cs "Medium-High"
  | .P3 => cs "Medium"
  | .P4 => cs "Low"

def priorityReasonOf : Priority → Chars
  | .P1 => cs "Inferred as high priority due to specific deadline and urgency"
  | .P2 => cs "Inferred as medium-high priority based on task importance"
  | _ => cs "Inferred based on task description"

/-- `parseNaturalLanguage` of `nlpParser.ts` (lines 42–223), with the
implicit wall clock as an explicit `now`. -/
def parseNaturalLanguage (input : Chars) (now : JSDate) : ParsedTask :=
  let text := toLowerStr input
  let title := titleOf input text
  let assignee := assigneeOf text input
  let due := nlpDueDate text now
  let priority := nlpPriority text
  let fmt := formatDateForDisplay due.1 due.2
  let tTrim := trimWs title
  { title := if tTrim = [] then trimWs input else tTrim
    assignee := assignee
    dueDate := toIsoChars due.1
    priority := priority
    dueDateFormatted := fmt.1
    dueTimeFormatted := fmt.2
    timeSpecified := due.2
    priorityText := priorityTextOf priority
    priorityReason := priorityReasonOf priority
    context := [] }

/-! ## Order and calendar lemmas -/

theorem ltD_char (a b : DateOnly) :
    ltD a b = true ↔
      a.y < b.y ∨ (a.y = b.y ∧ (a.mo < b.mo ∨ (a.mo = b.mo ∧ a.d < b.d))) := by
  simp [ltD, Bool.or_eq_true, Bool.and_eq_true, decide_eq_true_eq]

theorem ltD_false_char (a b : DateOnly) :
    ltD a b = false ↔
      ¬ (a.y < b.y ∨ (a.y = b.y ∧ (a.mo < b.mo ∨ (a.mo = b.mo ∧ a.d < b.d)))) := by
  rw [← ltD_char]
  cases h : ltD a b <;> simp

theorem daysInMonth_le_31 (y : Int) (mo : Nat) : daysInMonth y mo ≤ 31 := by
  unfold daysInMonth
  split <;> [split <;> omega; skip]
  split <;> omega

theorem daysInMonth_pos (y : Int) (mo : Nat) : 1 ≤ daysInMonth y mo := by
  unfold daysInMonth
  split <;> [split <;> omega; skip]
  split <;> omega

theorem lt_nextDayD (x : DateOnly) : ltD x (nextDayD x) = true := by
  unfold nextDayD
  split
  · rw [ltD_char]; dsimp only; omega
  · split <;> (rw [ltD_char]; dsimp only; omega)

theorem nextDayD_d_pos (x : DateOnly) : 1 ≤ (nextDayD x).d := by
  unfold nextDayD
  split
  · dsimp only; omega
  · split <;> (dsimp only; omega)

theorem prevDayD_d_pos (x : DateOnly) : 1 ≤ (prevDayD x).d := by
  unfold prevDayD
  split
  · dsimp only; omega
  · split
    · dsimp only; exact daysInMonth_pos _ _
    · dsimp only; omega

theorem addDaysD_ge (k : Nat) : ∀ x : DateOnly, ltD (addDaysD x k) x = false := by
  induction k with
  | zero => intro x; simp [addDaysD, ltD_false_char]
  | succ j ih =>
    intro x
    have h1 := (ltD_false_char _ _).mp (ih (nextDayD x))
    have h2 := (ltD_char _ _).mp (lt_nextDayD x)
    show ltD (addDaysD (nextDayD x) j) x = false
    rw [ltD_false_char]; omega

theorem addDaysD_gt (k : Nat) (hk : 1 ≤ k) (x : DateOnly) :
    ltD x (addDaysD x k) = true := by
  cases k with
  | zero => omega
  | succ j =>
    have h1 := (ltD_false_char _ _).mp (addDaysD_ge j (nextDayD x))
    have h2 := (ltD_char _ _).mp (lt_nextDayD x)
    show ltD x (addDaysD (nextDayD x) j) = true
    rw [ltD_char]; omega

theorem addDaysD_d_pos (k : Nat) : ∀ x : DateOnly, 1 ≤ x.d → 1 ≤ (addDaysD x k).d := by
  induction k with
  | zero => intro x h; exact h
  | succ j ih => intro x h; exact ih (nextDayD x) (nextDayD_d_pos x)

theorem subDaysD_d_pos (k : Nat) : ∀ x : DateOnly, 1 ≤ x.d → 1 ≤ (subDaysD x k).d := by
  induction k with
  | zero => intro x h; exact h
  | succ j ih => intro x h; exact ih (prevDayD x) (prevDayD_d_pos x)

theorem setDayOfMonth_d_pos (n : Int) (y : Int) (mo : Nat) :
    1 ≤ (setDayOfMonth n y mo).d := by
  unfold setDayOfMonth
  split
  · exact addDaysD_d_pos _ _ (by simp)
  · exact subDaysD_d_pos _ _ (by simp)

theorem addDaysD_y_ge (k : Nat) (x : DateOnly) : x.y ≤ (addDaysD x k).y := by
  have := (ltD_false_char _ _).mp (addDaysD_ge k x)
  omega

/-- `setDate(n)` with `n ≥ 1` never moves into an earlier year. -/
theorem setDayOfMonth_y_ge (n : Int) (y : Int) (mo : Nat) (hn : 1 ≤ n) :
    y ≤ (setDayOfMonth n y mo).y := by
  unfold setDayOfMonth
  rw [if_pos hn]
  exact addDaysD_y_ge _ _

theorem prevDayD_first_y (y : Int) (mo : Nat) :
    (prevDayD ⟨y, mo, 1⟩).y = (if 1 ≤ mo then y else y - 1) := by
  unfold prevDayD
  dsimp only
  rw [if_neg (by omega)]
  split <;> rfl

/-- `setDate(n)` with `n ≥ 0` moves at most one year back. -/
theorem setDayOfMonth_y_lb (n : Int) (y : Int) (mo : Nat) (hn : 0 ≤ n) :
    y - 1 ≤ (setDayOfMonth n y mo).y := by
  unfold setDayOfMonth
  split
  · have h2 : y ≤ (addDaysD ⟨y, mo, 1⟩ (n - 1).toNat).y := addDaysD_y_ge _ _
    omega
  · have hn1 : ((1 : Int) - n).toNat = 1 := by omega
    rw [hn1]
    show y - 1 ≤ (subDaysD (prevDayD ⟨y, mo, 1⟩) 0).y
    have h2 := prevDayD_first_y y mo
    show y - 1 ≤ (prevDayD ⟨y, mo, 1⟩).y
    rw [h2]
    split <;> omega

/-- `setDate(0)` keeps the year when the month is not January. -/
theorem setDayOfMonth_zero_y (y : Int) (mo : Nat) (hmo : 1 ≤ mo) :
    (setDayOfMonth 0 y mo).y = y := by
  unfold setDayOfMonth
  rw [if_neg (by omega)]
  have h1 : ((1 : Int) - 0).toNat = 1 := by omega
  rw [h1]
  show (prevDayD ⟨y, mo, 1⟩).y = y
  rw [prevDayD_first_y, if_pos hmo]

theorem addDaysD_in_month (y : Int) (mo : Nat) :
    ∀ j d, 1 ≤ d → d + j ≤ daysInMonth y mo →
      addDaysD ⟨y, mo, d⟩ j = ⟨y, mo, d + j⟩ := by
  intro j
  induction j with
  | zero => intro d _ _; simp [addDaysD]
  | succ i ih =>
    intro d hd hdim
    show addDaysD (nextDayD ⟨y, mo, d⟩) i = _
    have hstep : nextDayD ⟨y, mo, d⟩ = ⟨y, mo, d + 1⟩ := by
      unfold nextDayD
      dsimp only
      rw [if_pos (by omega)]
    rw [hstep, ih (d + 1) (by omega) (by omega)]
    congr 1
    omega

theorem addDaysD_norm_id (x : DateOnly) (h : ValidD x) :
    addDaysD ⟨x.y, x.mo, 1⟩ (x.d - 1) = x := by
  obtain ⟨hmo, hd1, hd2⟩ := h
  rw [addDaysD_in_month x.y x.mo (x.d - 1) 1 (by omega) (by omega)]
  congr 1
  omega

theorem addDaysD_add (a b : Nat) : ∀ x : DateOnly,
    addDaysD x (a + b) = addDaysD (addDaysD x a) b := by
  induction a with
  | zero => intro x; simp [addDaysD]
  | succ i ih =>
    intro x
    have h1 : i + 1 + b = (i + b) + 1 := by omega
    rw [h1]
    show addDaysD (nextDayD x) (i + b) = addDaysD (addDaysD (nextDayD x) i) b
    exact ih (nextDayD x)

theorem jsAddDays_dateOnly (k : Int) (t : JSDate) (hk : 0 ≤ k)
    (h : ValidD t.dateOnly) : (jsAddDays k t).dateOnly = addDaysD t.dateOnly k.toNat := by
  obtain ⟨hmo, hd1, hd2⟩ := h
  simp only [JSDate.dateOnly] at hmo hd1 hd2 ⊢
  show (jsSetDate ((t.d : Int) + k) t).dateOnly = _
  unfold jsSetDate JSDate.dateOnly setDayOfMonth
  dsimp only
  rw [if_pos (by omega)]
  have h1 : ((t.d : Int) + k - 1).toNat = (t.d - 1) + k.toNat := by omega
  rw [h1, addDaysD_add]
  have h2 : addDaysD ⟨t.y, t.mo, 1⟩ (t.d - 1) = ⟨t.y, t.mo, t.d⟩ := by
    have h3 := addDaysD_norm_id ⟨t.y, t.mo, t.d⟩ ⟨hmo, hd1, hd2⟩
    exact h3
  rw [h2]

/-! ## Properties of `ensureFutureDate` and the extraction helpers -/

theorem jsSetDate_d_pos (n : Int) (t : JSDate) : 1 ≤ (jsSetDate n t).d := by
  unfold jsSetDate
  exact setDayOfMonth_d_pos n t.y t.mo

theorem jsSetHours_fast (h mi : Nat) (t : JSDate) (hh : h ≤ 23) (hm : mi ≤ 59) :
    jsSetHours h mi t = { t with hh := h, mi := mi, ss := 0, ms := 0 } := by
  unfold jsSetHours
  rw [if_pos]
  simp [hh, hm]

theorem validateTime_bounds (r : Nat × Nat × Option Bool) :
    (validateTime r).1.1 ≤ 23 ∧ (validateTime r).1.2 ≤ 59 := by
  unfold validateTime
  split
  · next hcond =>
    simp only [Bool.and_eq_true, decide_eq_true_eq] at hcond
    exact ⟨hcond.1, hcond.2⟩
  · exact ⟨by decide, by decide⟩

theorem timeOf_bounds (text : Chars) :
    (timeOf text).1.1 ≤ 23 ∧ (timeOf text).1.2 ≤ 59 := by
  unfold timeOf
  split
  · exact validateTime_bounds _
  · split
    · exact validateTime_bounds _
    · exact ⟨by decide, by decide⟩

/-- When the already-resolved date is not date-before `now`,
`ensureFutureDate` is the identity. -/
theorem efd_of_not_lt (now d : JSDate) (h : ltD d.dateOnly now.dateOnly = false) :
    ensureFutureDate now d = d := by
  unfold ensureFutureDate
  simp [h]

theorem efd_d_pos (now d : JSDate) (hd : 1 ≤ d.d) : 1 ≤ (ensureFutureDate now d).d := by
  unfold ensureFutureDate
  split
  · split
    · exact jsSetDate_d_pos _ _
    · show 1 ≤ (jsSetFullYear (d.y + 1) d).d
      unfold jsSetFullYear
      exact setDayOfMonth_d_pos _ _ _
  · exact hd

/-- On the strict-less branch the inner same-day test of
`ensureFutureDate` can never fire, so the year is incremented. -/
theorem efd_of_lt (now d : JSDate) (hc : ltD d.dateOnly now.dateOnly = true) :
    ensureFutureDate now d = jsSetFullYear (d.y + 1) d := by
  have hne : ¬ (d.dateOnly = now.dateOnly) := by
    intro heq
    rw [heq] at hc
    have := (ltD_char _ _).mp hc
    omega
  unfold ensureFutureDate
  simp [hc, decide_eq_false hne]

theorem jsSetFullYear_dateOnly (y' : Int) (d : JSDate) :
    (jsSetFullYear y' d).dateOnly = setDayOfMonth (d.d : Int) y' d.mo := rfl

theorem efd_not_past (now d : JSDate) (hd : 1 ≤ d.d)
    (hy : ltD d.dateOnly now.dateOnly = false ∨ now.y ≤ d.y) :
    ltD (ensureFutureDate now d).dateOnly now.dateOnly = false := by
  by_cases hc : ltD d.dateOnly now.dateOnly = true
  · have hyy : now.y ≤ d.y := by
      rcases hy with hy | hy
      · rw [hc] at hy; exact absurd hy (by simp)
      · exact hy
    rw [efd_of_lt now d hc, jsSetFullYear_dateOnly]
    have hy2 : d.y + 1 ≤ (setDayOfMonth (d.d : Int) (d.y + 1) d.mo).y :=
      setDayOfMonth_y_ge _ _ _ (by omega)
    have hnn : now.dateOnly.y = now.y := rfl
    rw [ltD_false_char]
    omega
  · have hc' : ltD d.dateOnly now.dateOnly = false := by
      revert hc; cases ltD d.dateOnly now.dateOnly <;> simp
    rw [efd_of_not_lt now d hc']
    exact hc'

/-- After one `ensureFutureDate` pass, a date whose year was at least
`now.y - 1` is either not date-before `now` or has year at least `now.y`. -/
theorem efd_y_cases (now d : JSDate) (hd : 1 ≤ d.d) (hy : now.y - 1 ≤ d.y) :
    ltD (ensureFutureDate now d).dateOnly now.dateOnly = false ∨
      now.y ≤ (ensureFutureDate now d).y := by
  by_cases hc : ltD d.dateOnly now.dateOnly = true
  · rw [efd_of_lt now d hc]
    right
    have hy2 : d.y + 1 ≤ (setDayOfMonth (d.d : Int) (d.y + 1) d.mo).y :=
      setDayOfMonth_y_ge _ _ _ (by omega)
    have h3 : now.y ≤ d.y + 1 := by omega
    exact le_trans h3 hy2
  · have hc' : ltD d.dateOnly now.dateOnly = false := by
      revert hc; cases ltD d.dateOnly now.dateOnly <;> simp
    rw [efd_of_not_lt now d hc']
    exact Or.inl hc'

theorem ltD_irrefl (x : DateOnly) : ltD x x = false := by
  rw [ltD_false_char]; omega

theorem jsAddDays_d_pos (k : Int) (t : JSDate) : 1 ≤ (jsAddDays k t).d :=
  jsSetDate_d_pos _ _

theorem jsAddDays_not_past (k : Int) (t : JSDate) (hk : 0 ≤ k)
    (h : ValidD t.dateOnly) : ltD (jsAddDays k t).dateOnly t.dateOnly = false := by
  rw [jsAddDays_dateOnly k t hk h]
  exact addDaysD_ge _ _

/-- The date built by the absolute-date branches,
`setMonth` then `setDate`, loses at most one year. -/
theorem absDate_y_lb (day : Nat) (m : Int) (now : JSDate) (hm : -1 ≤ m)
    (hn : ValidD now.dateOnly) :
    now.y - 1 ≤ (jsSetDate (day : Int) (jsSetMonth m now)).y := by
  obtain ⟨hmo, hd1, hd2⟩ := hn
  have hd1' : 1 ≤ now.d := hd1
  by_cases h0 : 0 ≤ m
  · have hdiv : 0 ≤ m / 12 := Int.ediv_nonneg h0 (by omega)
    have h1 : now.y ≤ (jsSetMonth m now).y := by
      have h2 := setDayOfMonth_y_ge (now.d : Int) (now.y + m / 12) ((m % 12).toNat)
        (by omega)
      show now.y ≤ (setDayOfMonth (now.d : Int) (now.y + m / 12) ((m % 12).toNat)).y
      omega
    have h2 : (jsSetMonth m now).y - 1 ≤ (jsSetDate (day : Int) (jsSetMonth m now)).y := by
      show _ - 1 ≤ (setDayOfMonth (day : Int) (jsSetMonth m now).y (jsSetMonth m now).mo).y
      exact setDayOfMonth_y_lb _ _ _ (by omega)
    omega
  · have hm1 : m = -1 := by omega
    subst hm1
    have hdivc : (-1 : Int) / 12 = -1 := by decide
    have hmodc : (((-1 : Int) % 12)).toNat = 11 := by decide
    have hset : setDayOfMonth (now.d : Int) (now.y + (-1 : Int) / 12) (((-1 : Int) % 12).toNat)
        = ⟨now.y - 1, 11, now.d⟩ := by
      rw [hdivc, hmodc]
      unfold setDayOfMonth
      rw [if_pos (by omega)]
      have htn : ((now.d : Int) - 1).toNat = now.d - 1 := by omega
      rw [htn]
      have hlim : daysInMonth (now.y + -1) 11 = 31 := by
        unfold daysInMonth; simp
      have h31 : now.d ≤ 31 := le_trans hd2 (daysInMonth_le_31 _ _)
      rw [addDaysD_in_month (now.y + -1) 11 (now.d - 1) 1 (by omega) (by omega)]
      have : now.y + -1 = now.y - 1 := by omega
      rw [this]
      congr 1
      omega
    have hmm : jsSetMonth (-1) now = { now with y := now.y - 1, mo := 11, d := now.d } := by
      simp only [jsSetMonth]
      rw [hset]
    rw [hmm]
    by_cases hday : 1 ≤ day
    · have h3 := setDayOfMonth_y_ge (day : Int) (now.y - 1) 11 (by omega)
      show now.y - 1 ≤ (setDayOfMonth (day : Int) (now.y - 1) 11).y
      omega
    · have hd0 : day = 0 := by omega
      subst hd0
      show now.y - 1 ≤ (setDayOfMonth ((0 : Nat) : Int) (now.y - 1) 11).y
      have hcast : ((0 : Nat) : Int) = 0 := rfl
      rw [hcast, setDayOfMonth_zero_y _ _ (by omega)]

theorem nlpRawDate_d_pos (text : Chars) (now : JSDate) (hnd : 1 ≤ now.d) :
    1 ≤ (nlpRawDate text now).d := by
  unfold nlpRawDate
  split
  · exact jsAddDays_d_pos _ _
  · split
    · exact hnd
    · split
      · exact jsAddDays_d_pos _ _
      · split
        · exact efd_d_pos _ _ (jsSetDate_d_pos _ _)
        · split
          · exact efd_d_pos _ _ (jsSetDate_d_pos _ _)
          · split
            · exact efd_d_pos _ _ (jsSetDate_d_pos _ _)
            · split
              · exact jsAddDays_d_pos _ _
              · rw [jsSetHours_fast 17 0 now (by omega) (by omega)]
                exact hnd

theorem nlpRawDate_y_cases (text : Chars) (now : JSDate) (hnv : ValidD now.dateOnly) :
    ltD (nlpRawDate text now).dateOnly now.dateOnly = false ∨
      now.y ≤ (nlpRawDate text now).y := by
  have hnd : 1 ≤ now.d := hnv.2.1
  unfold nlpRawDate
  split
  · exact Or.inl (jsAddDays_not_past 1 now (by omega) hnv)
  · split
    · exact Or.inl (ltD_irrefl _)
    · split
      · exact Or.inl (jsAddDays_not_past 7 now (by omega) hnv)
      · split
        · next day mo heq =>
          exact efd_y_cases now _ (jsSetDate_d_pos _ _)
            (absDate_y_lb day (mo : Int) now (by omega) hnv)
        · split
          · next mo day heq =>
            exact efd_y_cases now _ (jsSetDate_d_pos _ _)
              (absDate_y_lb day (mo : Int) now (by omega) hnv)
          · split
            · next m1 d1 heq =>
              exact efd_y_cases now _ (jsSetDate_d_pos _ _)
                (absDate_y_lb d1 ((m1 : Int) - 1) now (by omega) hnv)
            · split
              · exact Or.inl (jsAddDays_not_past _ now (by omega) hnv)
              · rw [jsSetHours_fast 17 0 now (by omega) (by omega)]
                exact Or.inl (ltD_irrefl _)

/-- The post-`setHours` `ensureFutureDate` step yields a date that is not
date-before `now`, for any in-range time and any intermediate date that is
not date-before `now` or has year at least `now.y`. -/
theorem finalStep (now d0 : JSDate) (h mi : Nat) (hh : h ≤ 23) (hm : mi ≤ 59)
    (hd : 1 ≤ d0.d)
    (hy : ltD d0.dateOnly now.dateOnly = false ∨ now.y ≤ d0.y) :
    ltD (ensureFutureDate now (jsSetHours h mi d0)).dateOnly now.dateOnly = false := by
  rw [jsSetHours_fast h mi d0 hh hm]
  exact efd_not_past now _ hd hy

/-- The due date resolved by the single-task parser is never date-before
`now` (the roll-forward corrections restore the invariant on every branch). -/
theorem nlpDueDate_not_past (text : Chars) (now : JSDate) (hn : ValidDT now) :
    ltD (nlpDueDate text now).1.dateOnly now.dateOnly = false := by
  obtain ⟨hnv, -⟩ := hn
  have hb := timeOf_bounds text
  unfold nlpDueDate
  exact finalStep now (nlpRawDate text now) _ _ hb.1 hb.2
    (nlpRawDate_d_pos text now hnv.2.1) (nlpRawDate_y_cases text now hnv)

/-! ## The capitalized-name pattern never fires on lowercased text -/

theorem charOfNat_toNat (n : Nat) (h : n < 55296) : (Char.ofNat n).toNat = n := by
  have hv : Nat.isValidChar n := Or.inl h
  simp [Char.ofNat, hv, Char.ofNatAux, Char.toNat, UInt32.toNat, BitVec.toNat_ofNatLt]

theorem lowerA_not_upper (c : Char) : isUpperA (lowerA c) = false := by
  unfold lowerA
  by_cases hup : isUpperA c = true
  · rw [if_pos hup]
    unfold isUpperA at hup ⊢
    simp only [Bool.and_eq_true, decide_eq_true_eq] at hup
    rw [charOfNat_toNat (c.toNat + 32) (by omega)]
    simp only [Bool.and_eq_false_iff, decide_eq_false_iff_not]
    right
    omega
  · rw [if_neg hup]
    exact Bool.eq_false_iff.mpr hup

theorem mem_toLower_not_upper (s : Chars) (c : Char) (hc : c ∈ toLowerStr s) :
    isUpperA c = false := by
  unfold toLowerStr at hc
  obtain ⟨a, _, rfl⟩ := List.mem_map.mp hc
  exact lowerA_not_upper a

theorem scanFirstB_ex (f : Option Char → Chars → Option α) :
    ∀ (prev : Option Char) (s : Chars) (v : α), scanFirstB f prev s = some v →
      ∃ prev' s', s' <:+ s ∧ f prev' s' = some v := by
  intro prev s
  induction s generalizing prev with
  | nil =>
    intro v h
    exact ⟨prev, [], List.suffix_refl [], h⟩
  | cons c rest ih =>
    intro v h
    unfold scanFirstB at h
    revert h
    cases hf : f prev (c :: rest) with
    | some r =>
      intro h
      simp only [Option.some.injEq] at h
      subst h
      exact ⟨prev, c :: rest, List.suffix_refl _, hf⟩
    | none =>
      intro h
      obtain ⟨p', s', hs, hf'⟩ := ih (some c) v h
      exact ⟨p', s', hs.trans (List.suffix_cons c rest), hf'⟩

theorem capNameAt_head (prev : Option Char) (s : Chars) (v : Chars)
    (h : capNameAt prev s = some v) : ∃ c r, s = c :: r ∧ isUpperA c = true := by
  revert h
  unfold capNameAt
  split
  · intro h; simp at h
  · cases s with
    | nil => intro h; simp at h
    | cons c r =>
      intro h
      dsimp only at h
      by_cases hu : isUpperA c = true
      · exact ⟨c, r, rfl, hu⟩
      · rw [Bool.eq_false_iff.mpr hu] at h
        simp at h

theorem cap_toLower_none (s : Chars) : capNameFind (toLowerStr s) = none := by
  cases hf : capNameFind (toLowerStr s) with
  | none => rfl
  | some v =>
    exfalso
    obtain ⟨prev', s', hsuf, hat⟩ := scanFirstB_ex capNameAt none (toLowerStr s) v hf
    obtain ⟨c, r, rfl, hu⟩ := capNameAt_head _ _ _ hat
    have hmem : c ∈ toLowerStr s := hsuf.subset (List.mem_cons_self c r)
    rw [mem_toLower_not_upper s c hmem] at hu
    exact absurd hu (by simp)

/-! ## Branch-level facts used by the claim theorems -/

/-- When no relative keyword and no earlier date pattern matches and the
weekday pattern names the current weekday, the weekday branch adds 7 days
(the `|| 7` fallback of line 170). -/
theorem nlpRawDate_weekday_branch (text : Chars) (now : JSDate)
    (h1 : containsSub text (cs "tomorrow") = false)
    (h2 : containsSub text (cs "today") = false)
    (h3 : containsSub text (cs "next week") = false)
    (h4 : scanFirst mn1At text = none)
    (h5 : scanFirst mn2At text = none)
    (h6 : scanFirst mmddAt text = none)
    (h7 : scanFirst weekdayAt text = some (weekdayOf now.dateOnly)) :
    nlpRawDate text now = jsAddDays 7 now := by
  unfold nlpRawDate
  simp only [h1, h2, h3, h4, h5, h6, h7, Bool.false_eq_true, if_false]
  have hj : weekdayOf now.dateOnly + 7 - weekdayOf now.dateOnly = 7 := by omega
  simp [hj]

theorem efd_setHours_eq (now d0 : JSDate) (h mi : Nat) (hh : h ≤ 23) (hm : mi ≤ 59)
    (hlt : ltD d0.dateOnly now.dateOnly = false) :
    ensureFutureDate now (jsSetHours h mi d0)
      = { d0 with hh := h, mi := mi, ss := 0, ms := 0 } := by
  rw [jsSetHours_fast _ _ _ hh hm]
  apply efd_of_not_lt
  exact hlt

theorem efd_setHours_dateOnly (now d0 : JSDate) (h mi : Nat) (hh : h ≤ 23) (hm : mi ≤ 59)
    (hlt : ltD d0.dateOnly now.dateOnly = false) :
    (ensureFutureDate now (jsSetHours h mi d0)).dateOnly = d0.dateOnly := by
  rw [efd_setHours_eq now d0 h mi hh hm hlt]
  rfl

/-- Reference times used in concrete evaluations: a Friday noon and a
Monday noon (UTC model). -/
def nowFri : JSDate := ⟨2025, 5, 20, 12, 0, 0, 0⟩

def nowMon : JSDate := ⟨2025, 5, 23, 12, 0, 0, 0⟩

/-- C1 (corrected): for every input and every valid parse time, the
(year, month, day) tuple of the dueDate resolved by the local parser
(`parseNaturalLanguage`, serialized from `nlpDueDate`) is never smaller
than now's tuple; and when the date is actually resolved by the weekday
branch of the date-pattern loop (no relative keyword occurs and no earlier
date pattern matches), naming the current weekday yields the date seven
days ahead, never today.  The original claim's weekday clause, quantified
over every input that merely names the current weekday, is refuted by the
counterexample (an input also containing "today"). -/
theorem c1_dueDate_roll_forward (input : Chars) (now : JSDate) (hn : ValidDT now) :
    ((parseNaturalLanguage input now).dueDate
        = toIsoChars (nlpDueDate (toLowerStr input) now).1
      ∧ ltD (nlpDueDate (toLowerStr input) now).1.dateOnly now.dateOnly = false)
    ∧ (containsSub (toLowerStr input) (cs "tomorrow") = false →
        containsSub (toLowerStr input) (cs "today") = false →
        containsSub (toLowerStr input) (cs "next week") = false →
        scanFirst mn1At (toLowerStr input) = none →
        scanFirst mn2At (toLowerStr input) = none →
        scanFirst mmddAt (toLowerStr input) = none →
        scanFirst weekdayAt (toLowerStr input) = some (weekdayOf now.dateOnly) →
        (nlpDueDate (toLowerStr input) now).1.dateOnly = addDaysD now.dateOnly 7
          ∧ (nlpDueDate (toLowerStr input) now).1.dateOnly ≠ now.dateOnly) := by
  refine ⟨⟨rfl, nlpDueDate_not_past _ now hn⟩, ?_⟩
  intro h1 h2 h3 h4 h5 h6 h7
  have hnv := hn.1
  have hraw := nlpRawDate_weekday_branch (toLowerStr input) now h1 h2 h3 h4 h5 h6 h7
  have hb := timeOf_bounds (toLowerStr input)
  have h8 : (nlpDueDate (toLowerStr input) now).1
      = ensureFutureDate now (jsSetHours (timeOf (toLowerStr input)).1.1
          (timeOf (toLowerStr input)).1.2 (jsAddDays 7 now)) := by
    unfold nlpDueDate
    rw [hraw]
  have hlt : ltD (jsAddDays 7 now).dateOnly now.dateOnly = false :=
    jsAddDays_not_past 7 now (by omega) hnv
  have hD : (nlpDueDate (toLowerStr input) now).1.dateOnly = addDaysD now.dateOnly 7 := by
    rw [h8, efd_setHours_dateOnly now _ _ _ hb.1 hb.2 hlt,
      jsAddDays_dateOnly 7 now (by omega) hnv]
    rfl
  refine ⟨hD, ?_⟩
  rw [hD]
  intro heq
  have hgt := addDaysD_gt 7 (by omega) now.dateOnly
  rw [heq, ltD_irrefl] at hgt
  exact absurd hgt (by simp)

/-- C1 counterexample: at a Monday reference time, the input
"submit today monday" names the current weekday ("monday", index 1), yet
the resolved due date is today's date (the "today" keyword wins), so the
claim's "never today's date" clause is false as stated. -/
theorem c1_same_weekday_today_cex :
    weekdayOf nowMon.dateOnly = 1
    ∧ dayNamesL.getD 1 [] = cs "monday"
    ∧ containsSub (toLowerStr (cs "submit today monday")) (cs "monday") = true
    ∧ (nlpDueDate (toLowerStr (cs "submit today monday")) nowMon).1.dateOnly
        = nowMon.dateOnly
    ∧ (parseNaturalLanguage (cs "submit today monday") nowMon).dueDate
        = cs "2025-06-23T17:00:00.000Z" := by decide

/-- C1 witness: the amended theorem applied at the input "plan monday"
and a Monday reference time, with all hypotheses discharged concretely. -/
theorem c1_dueDate_roll_forward_witness :
    ((parseNaturalLanguage (cs "plan monday") nowMon).dueDate
        = toIsoChars (nlpDueDate (toLowerStr (cs "plan monday")) nowMon).1
      ∧ ltD (nlpDueDate (toLowerStr (cs "plan monday")) nowMon).1.dateOnly
          nowMon.dateOnly = false)
    ∧ ((nlpDueDate (toLowerStr (cs "plan monday")) nowMon).1.dateOnly
        = addDaysD nowMon.dateOnly 7
      ∧ (nlpDueDate (toLowerStr (cs "plan monday")) nowMon).1.dateOnly
          ≠ nowMon.dateOnly) := by
  refine ⟨(c1_dueDate_roll_forward (cs "plan monday") nowMon (by decide)).1,
    (c1_dueDate_roll_forward (cs "plan monday") nowMon (by decide)).2
      ?_ ?_ ?_ ?_ ?_ ?_ ?_⟩ <;> decide

/-- C3: evaluation of `ensureFutureDate` at the claim's distinguished
cases.  A resolved date on today's date with a clock time earlier than now
is returned unchanged (the source's same-day "+1 day" branch sits inside
the strict date-only `<` test and is unreachable), and a date more than a
year in the past is incremented exactly once, still landing in the past
(the increment is not repeated). -/
theorem c3_ensureFutureDate_behavior :
    ensureFutureDate ⟨2025, 5, 15, 12, 0, 0, 0⟩ ⟨2025, 5, 15, 8, 0, 0, 0⟩
        = ⟨2025, 5, 15, 8, 0, 0, 0⟩
    ∧ ltT ⟨2025, 5, 15, 8, 0, 0, 0⟩ ⟨2025, 5, 15, 12, 0, 0, 0⟩ = true
    ∧ ensureFutureDate ⟨2025, 5, 15, 12, 0, 0, 0⟩ ⟨2022, 0, 1, 9, 0, 0, 0⟩
        = ⟨2023, 0, 1, 9, 0, 0, 0⟩
    ∧ ltD (⟨2023, 0, 1⟩ : DateOnly) (⟨2025, 5, 15⟩ : DateOnly) = true := by decide

/-- C10: if the lowercased input has no occurrence of "for" or "with"
followed by whitespace and a word, the assignee is empty — the
capitalized-word fallback can never fire because its pattern requires an
ASCII uppercase letter but is matched against the lowercased text. -/
theorem c10_lowercase_assignee (input : Chars) (now : JSDate)
    (h : forWithFind (toLowerStr input) = none) :
    (parseNaturalLanguage input now).assignee = [] := by
  show assigneeOf (toLowerStr input) input = []
  unfold assigneeOf
  simp only [h, cap_toLower_none]

/-- C10 witness: a concrete input with a capitalized personal name but no
"for"/"with" still yields an empty assignee. -/
theorem c10_lowercase_assignee_witness :
    forWithFind (toLowerStr (cs "Email Sarah")) = none
    ∧ (parseNaturalLanguage (cs "Email Sarah") nowFri).assignee = [] :=
  ⟨by decide, c10_lowercase_assignee (cs "Email Sarah") nowFri (by decide)⟩

/-- C9 (corrected): the local single-task parser is a total function, and
on an input with no recognizable signal — no stop word at a positive
index, no time digits, no date keyword or pattern, no `for`/`with`
assignee phrase, and no priority signal — every field degrades to the
documented default: empty assignee, priority P3, no time, and the default
17:00-today date passed through the roll-forward correction.  The title
default is the *trimmed* raw input (`title.trim() || input.trim()`), not
the raw input as originally claimed. -/
theorem c9_defaults (input : Chars) (now : JSDate)
    (hTitle : titleOf input (toLowerStr input) = input)
    (hT1 : scanFirst (timeMatchAt true) (toLowerStr input) = none)
    (hT2 : scanFirst (timeMatchAt false) (toLowerStr input) = none)
    (hTom : containsSub (toLowerStr input) (cs "tomorrow") = false)
    (hTod : containsSub (toLowerStr input) (cs "today") = false)
    (hNw : containsSub (toLowerStr input) (cs "next week") = false)
    (hM1 : scanFirst mn1At (toLowerStr input) = none)
    (hM2 : scanFirst mn2At (toLowerStr input) = none)
    (hMd : scanFirst mmddAt (toLowerStr input) = none)
    (hWd : scanFirst weekdayAt (toLowerStr input) = none)
    (hFw : forWithFind (toLowerStr input) = none)
    (hPt : scanPTok (toLowerStr input) = none)
    (hU : containsSub (toLowerStr input) (cs "urgent") = false)
    (hA : containsSub (toLowerStr input) (cs "asap") = false)
    (hE : containsSub (toLowerStr input) (cs "emergency") = false)
    (hI : containsSub (toLowerStr input) (cs "important") = false)
    (hH : containsSub (toLowerStr input) (cs "high priority") = false)
    (hL : containsSub (toLowerStr input) (cs "low priority") = false)
    (hW : containsSub (toLowerStr input) (cs "whenever") = false) :
    (parseNaturalLanguage input now).title = trimWs input
    ∧ (parseNaturalLanguage input now).assignee = []
    ∧ (parseNaturalLanguage input now).priority = Priority.P3
    ∧ (parseNaturalLanguage input now).timeSpecified = false
    ∧ (parseNaturalLanguage input now).dueTimeFormatted = none
    ∧ (parseNaturalLanguage input now).dueDate
        = toIsoChars (ensureFutureDate now (jsSetHours 17 0 now)) := by
  have htime : timeOf (toLowerStr input) = ((17, 0), false) := by
    unfold timeOf
    rw [hT1, hT2]
  have hraw : nlpRawDate (toLowerStr input) now = jsSetHours 17 0 now := by
    unfold nlpRawDate
    simp only [hTom, hTod, hNw, hM1, hM2, hMd, hWd, Bool.false_eq_true, if_false]
  have hidem : jsSetHours 17 0 (jsSetHours 17 0 now) = jsSetHours 17 0 now := by
    rw [jsSetHours_fast 17 0 now (by omega) (by omega)]
    rw [jsSetHours_fast 17 0 _ (by omega) (by omega)]
  refine ⟨?_, ?_, ?_, ?_, ?_, ?_⟩
  · simp only [parseNaturalLanguage]
    rw [hTitle]
    split <;> rfl
  · simp only [parseNaturalLanguage, assigneeOf, hFw, cap_toLower_none]
  · simp only [parseNaturalLanguage, nlpPriority, hPt]
    simp [hU, hA, hE, hI, hH, hL, hW]
  · simp only [parseNaturalLanguage, nlpDueDate, htime]
  · simp only [parseNaturalLanguage, formatDateForDisplay, nlpDueDate, htime]
    rfl
  · simp only [parseNaturalLanguage, nlpDueDate, htime, hraw, hidem]

/-- C9 counterexample: for the no-signal input " z " the returned title is
the trimmed input "z", not the raw input " z " as the claim states. -/
theorem c9_title_not_raw_cex :
    (parseNaturalLanguage (cs " z ") nowFri).title = cs "z"
    ∧ cs "z" ≠ cs " z "
    ∧ (parseNaturalLanguage (cs " z ") nowFri).assignee = []
    ∧ (parseNaturalLanguage (cs " z ") nowFri).priority = Priority.P3 := by
  decide

/-- C9 witness: the defaults theorem applied to the concrete no-signal
input "zzz" at the Friday reference time. -/
theorem c9_defaults_witness :
    (parseNaturalLanguage (cs "zzz") nowFri).title = trimWs (cs "zzz")
    ∧ (parseNaturalLanguage (cs "zzz") nowFri).assignee = []
    ∧ (parseNaturalLanguage (cs "zzz") nowFri).priority = Priority.P3
    ∧ (parseNaturalLanguage (cs "zzz") nowFri).timeSpecified = false
    ∧ (parseNaturalLanguage (cs "zzz") nowFri).dueTimeFormatted = none
    ∧ (parseNaturalLanguage (cs "zzz") nowFri).dueDate
        = toIsoChars (ensureFutureDate nowFri (jsSetHours 17 0 nowFri)) := by
  apply c9_defaults (cs "zzz") nowFri <;> decide

theorem fmtTime_17_0 (t : JSDate) (h1 : t.hh = 17) (h2 : t.mi = 0) :
    formatTime12 t = cs "5:00 PM" := by
  unfold formatTime12
  rw [h1, h2]
  rfl

/-- C5 (corrected): parsing "Call client Rajeev tomorrow 5pm" at any valid
time yields a title containing "Call client", `timeSpecified = true`,
formatted time "5:00 PM", a due date on tomorrow's calendar date, and
priority P3 — but the assignee is the empty string, not "Rajeev": the
capitalized-name fallback runs against the lowercased text and the input
has no "for"/"with" phrase. -/
theorem c5_call_client_scenario (now : JSDate) (hn : ValidDT now) :
    containsSub (parseNaturalLanguage (cs "Call client Rajeev tomorrow 5pm") now).title
        (cs "Call client") = true
    ∧ (parseNaturalLanguage (cs "Call client Rajeev tomorrow 5pm") now).assignee = []
    ∧ (parseNaturalLanguage (cs "Call client Rajeev tomorrow 5pm") now).timeSpecified = true
    ∧ (parseNaturalLanguage (cs "Call client Rajeev tomorrow 5pm") now).dueTimeFormatted
        = some (cs "5:00 PM")
    ∧ (parseNaturalLanguage (cs "Call client Rajeev tomorrow 5pm") now).priority
        = Priority.P3
    ∧ (parseNaturalLanguage (cs "Call client Rajeev tomorrow 5pm") now).dueDate
        = toIsoChars (nlpDueDate (toLowerStr (cs "Call client Rajeev tomorrow 5pm")) now).1
    ∧ (nlpDueDate (toLowerStr (cs "Call client Rajeev tomorrow 5pm")) now).1.dateOnly
        = addDaysD now.dateOnly 1 := by
  have hnv := hn.1
  have htom : containsSub (toLowerStr (cs "Call client Rajeev tomorrow 5pm"))
      (cs "tomorrow") = true := by decide
  have hraw : nlpRawDate (toLowerStr (cs "Call client Rajeev tomorrow 5pm")) now
      = jsAddDays 1 now := by
    unfold nlpRawDate
    simp only [htom, if_true]
  have htime : timeOf (toLowerStr (cs "Call client Rajeev tomorrow 5pm"))
      = ((17, 0), true) := by decide
  have hlt : ltD (jsAddDays 1 now).dateOnly now.dateOnly = false :=
    jsAddDays_not_past 1 now (by omega) hnv
  have hdue : (nlpDueDate (toLowerStr (cs "Call client Rajeev tomorrow 5pm")) now).1
      = { jsAddDays 1 now with hh := 17, mi := 0, ss := 0, ms := 0 } := by
    unfold nlpDueDate
    rw [htime, hraw]
    exact efd_setHours_eq now _ 17 0 (by omega) (by omega) hlt
  refine ⟨rfl, rfl, rfl, ?_, rfl, rfl, ?_⟩
  · show (formatDateForDisplay
        (nlpDueDate (toLowerStr (cs "Call client Rajeev tomorrow 5pm")) now).1
        (nlpDueDate (toLowerStr (cs "Call client Rajeev tomorrow 5pm")) now).2).2
      = some (cs "5:00 PM")
    have h2 : (nlpDueDate (toLowerStr (cs "Call client Rajeev tomorrow 5pm")) now).2
        = true := by
      unfold nlpDueDate
      rw [htime]
    unfold formatDateForDisplay
    rw [h2, hdue]
    show some (formatTime12
        ({ jsAddDays 1 now with hh := 17, mi := 0, ss := 0, ms := 0 } : JSDate))
      = some (cs "5:00 PM")
    exact congrArg some (fmtTime_17_0 _ rfl rfl)
  · rw [hdue]
    show (jsAddDays 1 now).dateOnly = addDaysD now.dateOnly 1
    rw [jsAddDays_dateOnly 1 now (by omega) hnv]
    rfl

/-- C5 counterexample: at the Friday reference time the parsed assignee is
empty, not "Rajeev" as the claim states. -/
theorem c5_assignee_cex :
    (parseNaturalLanguage (cs "Call client Rajeev tomorrow 5pm") nowFri).assignee = []
    ∧ ([] : Chars) ≠ cs "Rajeev" := by decide

/-- C5 witness: the amended scenario theorem at the Friday reference time. -/
theorem c5_call_client_scenario_witness :
    containsSub (parseNaturalLanguage (cs "Call client Rajeev tomorrow 5pm") nowFri).title
        (cs "Call client") = true
    ∧ (parseNaturalLanguage (cs "Call client Rajeev tomorrow 5pm") nowFri).assignee = []
    ∧ (parseNaturalLanguage (cs "Call client Rajeev tomorrow 5pm") nowFri).timeSpecified = true
    ∧ (parseNaturalLanguage (cs "Call client Rajeev tomorrow 5pm") nowFri).dueTimeFormatted
        = some (cs "5:00 PM")
    ∧ (parseNaturalLanguage (cs "Call client Rajeev tomorrow 5pm") nowFri).priority
        = Priority.P3
    ∧ (parseNaturalLanguage (cs "Call client Rajeev tomorrow 5pm") nowFri).dueDate
        = toIsoChars (nlpDueDate (toLowerStr (cs "Call client Rajeev tomorrow 5pm")) nowFri).1
    ∧ (nlpDueDate (toLowerStr (cs "Call client Rajeev tomorrow 5pm")) nowFri).1.dateOnly
        = addDaysD nowFri.dateOnly 1 :=
  c5_call_client_scenario nowFri (by decide)

/-! ## Embedding of `src/utils/meetingMinutesParser.ts` -/

/-- Case-insensitive prefix test (`pat` given in lowercase). -/
def startsWithCi : Chars → Chars → Bool
  | _, [] => true
  | [], _ :: _ => false
  | c :: s, p :: ps => lowerA c = p && startsWithCi s ps

/-- Generic engine for a global regex replace (`String.replace` with `/g`):
scan left to right, on a match emit the replacement and continue after the
consumed characters (every matcher consumes at least one character, so
`s.length` units of fuel suffice). -/
def replaceScan (matchAt : Chars → Option (Nat × Chars)) : Nat → Chars → Chars
  | 0, s => s
  | fuel + 1, s =>
    match s with
    | [] => []
    | c :: rest =>
      match matchAt (c :: rest) with
      | some (len, rep) => rep ++ replaceScan matchAt fuel ((c :: rest).drop len)
      | none => c :: replaceScan matchAt fuel rest

def replaceAll (matchAt : Chars → Option (Nat × Chars)) (s : Chars) : Chars :=
  replaceScan matchAt s.length s

/-- `/\[([^\]]+)\]:\s*/g → '$1: '` (and the parenthesis variant). -/
def speakerAt (openC closeC : Char) (s : Chars) : Option (Nat × Chars) :=
  match s with
  | c :: r =>
    if c = openC then
      let (nm, r2) := spanP (fun x => x ≠ closeC) r
      if nm = [] then none
      else
        match r2 with
        | c2 :: ':' :: r3 =>
          if c2 = closeC then
            let (ws, _) := spanP isWsA r3
            some (1 + nm.length + 2 + ws.length, nm ++ [ ':', ' ' ])
          else none
        | _ => none
    else none
  | [] => none

/-- `/\[\d{1,2}:\d{2}(:\d{2})?\]/g → ' '` (and the parenthesis variant). -/
def timestampAt (openC closeC : Char) (s : Chars) : Option (Nat × Chars) :=
  match s with
  | c :: r =>
    if c = openC then
      let afterH? :=
        match pD2 r with
        | some (_, r2) => some (2, r2)
        | none =>
          match pD1 r with
          | some (_, r2) => some (1, r2)
          | none => none
      match afterH? with
      | none => none
      | some (hl, r2) =>
        match r2 with
        | ':' :: m1 :: m2 :: r3 =>
          if isDigitA m1 && isDigitA m2 then
            -- greedy optional seconds group, then the closing bracket
            (match r3 with
             | ':' :: s1 :: s2 :: c4 :: _ =>
               if isDigitA s1 && isDigitA s2 && c4 = closeC then
                 some (1 + hl + 3 + 3 + 1, [ ' ' ])
               else none
             | _ => none) <|>
            (match r3 with
             | c3 :: _ => if c3 = closeC then some (1 + hl + 3 + 1, [ ' ' ]) else none
             | [] => none)
          else none
        | _ => none
    else none
  | [] => none

/-- `/\n([A-Za-z]+):\s*/g → '. $1: '`. -/
def nlSpeakerAt (s : Chars) : Option (Nat × Chars) :=
  match s with
  | c :: r =>
    if c = '\n' then
      let (nm, r2) := spanP isAlphaA r
      if nm = [] then none
      else
        match r2 with
        | ':' :: r3 =>
          let (ws, _) := spanP isWsA r3
          some (1 + nm.length + 1 + ws.length, [ '.', ' ' ] ++ nm ++ [ ':', ' ' ])
        | _ => none
    else none
  | [] => none

/-- `/\.{2,}/g → '.'`. -/
def multiDotAt (s : Chars) : Option (Nat × Chars) :=
  match s with
  | '.' :: '.' :: r =>
    let (dots, _) := spanP (fun c => c = '.') r
    some (2 + dots.length, [ '.' ])
  | _ => none

/-- `/([.!?])([A-Za-z])/g → '$1 $2'`. -/
def punctLetterAt (s : Chars) : Option (Nat × Chars) :=
  match s with
  | p :: c :: _ =>
    if (p = '.' || p = '!' || p = '?') && isAlphaA c then some (2, [ p, ' ', c ])
    else none
  | _ => none

/-- `preprocessText` of `meetingMinutesParser.ts` (lines 67–88): the six
normalization passes in source order. -/
def preprocessText (text : Chars) : Chars :=
  let p1 := replaceAll (speakerAt '[' ']') text
  let p2 := replaceAll (speakerAt '(' ')') p1
  let p3 := replaceAll (timestampAt '[' ']') p2
  let p4 := replaceAll (timestampAt '(' ')') p3
  let p5 := replaceAll nlSpeakerAt p4
  let p6 := replaceAll multiDotAt p5
  replaceAll punctLetterAt p6

/-- `text.split(/[.!?]\s+/)`: split at sentence punctuation followed by
whitespace, the whitespace run consumed greedily. -/
def splitGo : Nat → Chars → Chars → List Chars
  | 0, acc, s => [acc.reverse ++ s]
  | fuel + 1, acc, s =>
    match s with
    | [] => [acc.reverse]
    | c :: rest =>
      if (c = '.' || c = '!' || c = '?') &&
          (match rest with | r :: _ => isWsA r | [] => false) then
        acc.reverse :: splitGo fuel [] (rest.dropWhile isWsA)
      else splitGo fuel (c :: acc) rest

def splitSegs (s : Chars) : List Chars := splitGo (s.length + 1) [] s

def taskIndicatorsL : List Chars :=
  [cs "take", cs "do", cs "finish", cs "complete", cs "handle", cs "prepare",
   cs "create", cs "make", cs "write", cs "review", cs "check", cs "update",
   cs "send", cs "share", cs "follow up", cs "follow-up", cs "followup",
   cs "get back", cs "call", cs "email", cs "schedule", cs "organize",
   cs "arrange", cs "book", cs "reserve", cs "confirm", cs "please",
   cs "need to", cs "should", cs "must", cs "will", cs "would", cs "could",
   cs "assigned", cs "responsible", cs "in charge", cs "work on", cs "develop"]

def timeIndicatorsL : List Chars :=
  [cs "by", cs "before", cs "after", cs "tomorrow", cs "today", cs "tonight",
   cs "next", cs "monday", cs "tuesday", cs "wednesday", cs "thursday",
   cs "friday", cs "saturday", cs "sunday", cs "week", cs "month",
   cs "morning", cs "afternoon", cs "evening", cs "noon", cs "day",
   cs "deadline", cs "due", cs "eod", cs "eow", cs "end of", cs "cob", cs "asap"]

/-- Anchored `\b[A-Z][a-z]+\b` (one capitalized word). -/
def capWordAt (prev : Option Char) (s : Chars) : Option Unit :=
  if !lboundB prev then none
  else
    match s with
    | c :: r =>
      if isUpperA c then
        let (ls, r2) := spanP isLowerA r
        if ls ≠ [] && rboundB r2 then some () else none
      else none
    | [] => none

def capWordTest (s : Chars) : Bool := (scanFirstB capWordAt none s).isSome

/-- Anchored case-insensitive whole-word alternation with `\b` on both
sides (`pats` given in lowercase, tried in order). -/
def bWordAt (pats : List Chars) (prev : Option Char) (s : Chars) : Option Chars :=
  if !lboundB prev then none
  else go pats
where
  go : List Chars → Option Chars
    | [] => none
    | p :: ps =>
      if startsWithCi s p && rboundB (s.drop p.length) then some p else go ps

def bWordTest (pats : List Chars) (s : Chars) : Bool :=
  (scanFirstB (bWordAt pats) none s).isSome

/-- `containsTaskAssignment` (lines 95–129). -/
def containsTaskAssignment (sentence : Chars) : Bool :=
  let hasTaskIndicator :=
    taskIndicatorsL.any (fun ind => containsSub (toLowerStr sentence) ind)
  let hasTimeIndicator :=
    timeIndicatorsL.any (fun ind => containsSub (toLowerStr sentence) ind)
  let hasAssigneeIndicator :=
    containsSub sentence (cs ":") ||
      bWordTest [cs "you", cs "he", cs "she", cs "they", cs "we"] sentence ||
      capWordTest sentence ||
      containsSub (toLowerStr sentence) (cs "assigned to")
  if capWordTest sentence && hasTaskIndicator then true
  else hasTaskIndicator && (hasTimeIndicator || hasAssigneeIndicator)

/-- `^([A-Za-z\s]+):\s*(.+)$`: an alphabetic/whitespace run from the
start, a colon, then at least one character with the remainder reachable
by `.+$` (no line feed may separate it from the end). -/
def e1Assignee (sentence : Chars) : Option Chars :=
  let (run, r1) := spanP (fun c => isAlphaA c || isWsA c) sentence
  if run = [] then none
  else
    match r1 with
    | ':' :: rest =>
      let tail := rest.dropWhile isWsA
      if tail ≠ [] then
        if containsSub tail (cs "\n") then none else some (trimWs run)
      else
        match rest.getLast? with
        | some c => if c ≠ '\n' then some (trimWs run) else none
        | none => none
    | _ => none

/-- First word of `^([A-Z][a-z]+)\s+…` under the `/i` flag (any letters,
at least two), followed by mandatory whitespace; returns the word and the
text after the whitespace. -/
def leadWord (s : Chars) : Option (Chars × Chars) :=
  match s with
  | c :: r =>
    if isAlphaA c then
      let (ls, r2) := spanP isAlphaA r
      if ls = [] then none
      else
        let (ws1, r3) := spanP isWsA r2
        if ws1 = [] then none else some (c :: ls, r3)
    else none
  | [] => none

def e2Kw : List Chars :=
  [cs "please", cs "will", cs "should", cs "can", cs "could", cs "would",
   cs "must", cs "need to"]

/-- `^([A-Z][a-z]+)\s+(please|will|should|can|could|would|must|need to)/i`. -/
def e2Assignee (sentence : Chars) : Option Chars :=
  match leadWord sentence with
  | some (w, r) => if e2Kw.any (fun kw => startsWithCi r kw) then some w else none
  | none => none

/-- `^([A-Z][a-z]+)\s+you\b/i`. -/
def e3Assignee (sentence : Chars) : Option Chars :=
  match leadWord sentence with
  | some (w, r) =>
    if startsWithCi r (cs "you") && rboundB (r.drop 3) then some w else none
  | none => none

def e4Kw : List Chars := [cs "to", cs "will", cs "should", cs "can", cs "please"]

/-- Anchored `\b([A-Z][a-z]+)\s+(to|will|should|can|please)\b/i`. -/
def e4At (prev : Option Char) (s : Chars) : Option Chars :=
  if !lboundB prev then none
  else
    match leadWord s with
    | some (w, r) =>
      match e4Kw.find? (fun kw => startsWithCi r kw) with
      | some kw => if rboundB (r.drop kw.length) then some w else none
      | none => none
    | none => none

def p1Kw : List Chars :=
  [cs "will", cs "should", cs "to", cs "needs to", cs "has to", cs "must",
   cs "can you", cs "could you", cs "would you", cs "please"]

/-- Anchored `(\w+)\s+(will|should|to|needs to|has to|must|can you|could
you|would you|please)/i` (no word boundaries). -/
def p1At (s : Chars) : Option Chars :=
  match s with
  | c :: r =>
    if isWordA c then
      let (ls, r2) := spanP isWordA r
      let (ws1, r3) := spanP isWsA r2
      if ws1 = [] then none
      else if p1Kw.any (fun kw => startsWithCi r3 kw) then some (c :: ls) else none
    else none
  | [] => none

def p2Kw : List Chars := [cs "assigned to", cs "give to", cs "for", cs "goes to"]

/-- Anchored `(assigned to|give to|for|goes to)\s+(\w+)/i`; note the
source returns the *indicator* (group 1), not the following name. -/
def p2At (s : Chars) : Option Chars :=
  match p2Kw.find? (fun kw => startsWithCi s kw) with
  | some kw =>
    let r := s.drop kw.length
    let (ws1, r2) := spanP isWsA r
    if ws1 = [] then none
    else
      match r2 with
      | c :: _ => if isWordA c then some (s.take kw.length) else none
      | [] => none
  | none => none

def p3Kw : List Chars := [cs "task", cs "job", cs "responsibility", cs "assignment"]

/-- Anchored `(\w+)'s\s+(task|job|responsibility|assignment)/i`. -/
def p3At (s : Chars) : Option Chars :=
  match s with
  | c :: r =>
    if isWordA c then
      let (ls, r2) := spanP isWordA r
      match r2 with
      | a :: s2 :: r3 =>
        if a = Char.ofNat 39 && (s2 = 's' || s2 = 'S') then
          let (ws1, r4) := spanP isWsA r3
          if ws1 = [] then none
          else if p3Kw.any (fun kw => startsWithCi r4 kw) then some (c :: ls) else none
        else none
      | _ => none
    else none
  | [] => none

def toUpperA (c : Char) : Char :=
  if isLowerA c then Char.ofNat (c.toNat - 32) else c

/-- `match[1].charAt(0).toUpperCase() + match[1].slice(1)`. -/
def capitalizeFirst (w : Chars) : Chars :=
  match w with
  | c :: r => toUpperA c :: r
  | [] => []

/-- `extractAssignee` (lines 136–182): the anchored patterns, then the
looser loop, first match wins. -/
def extractAssignee (sentence : Chars) : Chars :=
  match e1Assignee sentence with
  | some nm => nm
  | none =>
    match e2Assignee sentence with
    | some nm => nm
    | none =>
      match e3Assignee sentence with
      | some nm => nm
      | none =>
        match scanFirstB e4At none sentence with
        | some nm => nm
        | none =>
          match scanFirst p1At sentence with
          | some nm => capitalizeFirst nm
          | none =>
            match scanFirst p2At sentence with
            | some nm => capitalizeFirst nm
            | none =>
              match scanFirst p3At sentence with
              | some nm => capitalizeFirst nm
              | none => []

/-- Collapse `\s+` runs to one space (`replace(/\s+/g, ' ')`). -/
def collapseGo : Bool → Chars → Chars
  | _, [] => []
  | inWs, c :: rest =>
    if isWsA c then
      if inWs then collapseGo true rest else ' ' :: collapseGo true rest
    else c :: collapseGo false rest

def collapseWs (s : Chars) : Chars := collapseGo false s

/-- Engine for a first-occurrence regex delete (`String.replace` with a
non-global pattern and empty replacement), with `\b` context. -/
def replaceFirstB (f : Option Char → Chars → Option Nat) :
    Option Char → Chars → Chars
  | _, [] => []
  | prev, c :: rest =>
    match f prev (c :: rest) with
    | some len => (c :: rest).drop len
    | none => c :: replaceFirstB f (some c) rest

/-- `\b<word>\s+([^,\.]+)` (the `by`/`before`/`due`/`deadline` deleters). -/
def byLikeAt (word : Chars) (prev : Option Char) (s : Chars) : Option Nat :=
  if lboundB prev && startsWithCi s word then
    let r := s.drop word.length
    let (ws1, r2) := spanP isWsA r
    if ws1 = [] then none
    else
      let (body, _) := spanP (fun c => !(c = ',' || c = '.')) r2
      if body = [] then none else some (word.length + ws1.length + body.length)
  else none

def dayNamesRegexOrder : List Chars :=
  [cs "monday", cs "tuesday", cs "wednesday", cs "thursday", cs "friday",
   cs "saturday", cs "sunday"]

/-- `\bon\s+(monday|…|sunday)` deleter. -/
def onWeekdayAt (prev : Option Char) (s : Chars) : Option Nat :=
  if lboundB prev && startsWithCi s (cs "on") then
    let r := s.drop 2
    let (ws1, r2) := spanP isWsA r
    if ws1 = [] then none
    else
      match dayNamesRegexOrder.find? (fun d => startsWithCi r2 d) with
      | some d => some (2 + ws1.length + d.length)
      | none => none
  else none

def descPrefixesL : List Chars :=
  [cs "please", cs "can you", cs "could you", cs "will you", cs "would you",
   cs "you need to", cs "you should", cs "you must", cs "you will",
   cs "you have to", cs "need to", cs "should", cs "must", cs "will",
   cs "have to"]

/-- `extractTaskDescription` (lines 193–235). -/
def extractTaskDescription (segment assignee : Chars) : Chars :=
  let d0 :=
    if assignee ≠ [] && startsWithCs segment assignee then
      let d := trimWs (segment.drop assignee.length)
      match d with
      | ':' :: r => trimWs r
      | _ => d
    else segment
  let d1 := descPrefixesL.foldl
    (fun d p => if startsWithCs (toLowerStr d) p then trimWs (d.drop p.length) else d) d0
  let d2 := replaceFirstB (byLikeAt (cs "by")) none d1
  let d3 := replaceFirstB (byLikeAt (cs "before")) none d2
  let d4 := replaceFirstB (byLikeAt (cs "due")) none d3
  let d5 := replaceFirstB (byLikeAt (cs "deadline")) none d4
  let d6 := replaceFirstB onWeekdayAt none d5
  trimWs (collapseWs d6)

/-- `createStructuredSentence` (lines 245–269). -/
def createStructuredSentence (taskDescription assignee dueDate priority : Chars) : Chars :=
  let s1 := taskDescription
  let s2 := if assignee ≠ [] then s1 ++ cs " assigned to " ++ assignee else s1
  let s3 := if dueDate ≠ [] then s2 ++ cs " by " ++ dueDate else s2
  if priority ≠ [] then s3 ++ cs " with " ++ priority ++ cs " priority" else s3

/-- Anchored match of the explicit-priority alternation
`\b(p[1-4]|priority\s*[1-4]|high\s*priority|medium\s*priority|low\s*priority)\b/i`,
returning the lowercased matched text. -/
def expPrioAt (prev : Option Char) (s : Chars) : Option Chars :=
  if !lboundB prev then none
  else
    (match s with
     | a :: b :: r =>
       if lowerA a = 'p' && isDigitA b && 49 ≤ b.toNat && b.toNat ≤ 52 && rboundB r then
         some [ 'p', b ]
       else none
     | _ => none) <|>
    (wordNum (cs "priority") s) <|>
    (wordWord (cs "high") s) <|>
    (wordWord (cs "medium") s) <|>
    (wordWord (cs "low") s)
where
  wordNum (w : Chars) (s : Chars) : Option Chars :=
    if startsWithCi s w then
      let r := s.drop w.length
      let (ws1, r2) := spanP isWsA r
      match r2 with
      | b :: r3 =>
        if 49 ≤ b.toNat && b.toNat ≤ 52 && rboundB r3 then
          some (w ++ ws1 ++ [ b ])
        else none
      | [] => none
    else none
  wordWord (w : Chars) (s : Chars) : Option Chars :=
    if startsWithCi s w then
      let r := s.drop w.length
      let (ws1, r2) := spanP isWsA r
      if startsWithCi r2 (cs "priority") && rboundB (r2.drop 8) then
        some (w ++ ws1 ++ cs "priority")
      else none
    else none

def urgentWordsL : List Chars :=
  [cs "urgent", cs "critical", cs "asap", cs "immediately", cs "right away"]

def importantWordsL : List Chars :=
  [cs "important", cs "significant", cs "key", cs "major"]

/-- `extractPriority` of `meetingMinutesParser.ts` (lines 276–306). -/
def extractPriority (text : Chars) : Priority :=
  let fallback :=
    if bWordTest urgentWordsL text then Priority.P1
    else if bWordTest importantWordsL text then Priority.P2
    else Priority.P3
  match scanFirstB expPrioAt none text with
  | some p =>
    if containsSub p (cs "p1") || containsSub p (cs "priority 1") ||
        containsSub p (cs "high priority") then Priority.P1
    else if containsSub p (cs "p2") || containsSub p (cs "priority 2") then Priority.P2
    else if containsSub p (cs "p3") || containsSub p (cs "priority 3") ||
        containsSub p (cs "medium priority") then Priority.P3
    else if containsSub p (cs "p4") || containsSub p (cs "priority 4") ||
        containsSub p (cs "low priority") then Priority.P4
    else fallback
  | none => fallback

def dayWordsL : List Chars :=
  [cs "today", cs "tomorrow", cs "tonight", cs "monday", cs "tuesday",
   cs "wednesday", cs "thursday", cs "friday", cs "saturday", cs "sunday"]

/-- `\b<lead>\s+(alternation)` with the matched group returned in original
case: the engine for the `by`/`due`/`on` date-string patterns. -/
def leadAltAt (lead : Chars) (alts : List Chars) (prev : Option Char) (s : Chars) :
    Option Chars :=
  if lboundB prev && startsWithCi s lead then
    let r := s.drop lead.length
    let (ws1, r2) := spanP isWsA r
    if ws1 = [] then none
    else
      match alts.find? (fun a => startsWithCi r2 a) with
      | some a => some (r2.take a.length)
      | none => none
  else none

/-- `\bby\s+(\d{1,2}(am|pm|:\d{2}))/i` (pattern 1 of `extractDateString`). -/
def byTimeAt (prev : Option Char) (s : Chars) : Option Chars :=
  if lboundB prev && startsWithCi s (cs "by") then
    let r := s.drop 2
    let (ws1, r2) := spanP isWsA r
    if ws1 = [] then none
    else
      match (pD2 r2).map (fun _ => 2) <|> (pD1 r2).map (fun _ => 1) with
      | some dl =>
        let r3 := r2.drop dl
        if startsWithCi r3 (cs "am") || startsWithCi r3 (cs "pm") then
          some (r2.take (dl + 2))
        else
          match r3 with
          | ':' :: a :: b :: _ =>
            if isDigitA a && isDigitA b then some (r2.take (dl + 3)) else none
          | _ => none
      | none => none
  else none

/-- `\bby\s+(\d{1,2}:\d{2}\s*(?:am|pm)?)/i` (pattern 2). -/
def byClockAt (prev : Option Char) (s : Chars) : Option Chars :=
  if lboundB prev && startsWithCi s (cs "by") then
    let r := s.drop 2
    let (ws1, r2) := spanP isWsA r
    if ws1 = [] then none
    else
      match (pD2 r2).map (fun _ => 2) <|> (pD1 r2).map (fun _ => 1) with
      | some dl =>
        match r2.drop dl with
        | ':' :: a :: b :: r3 =>
          if isDigitA a && isDigitA b then
            let (ws2, r4) := spanP isWsA r3
            if startsWithCi r4 (cs "am") || startsWithCi r4 (cs "pm") then
              some (r2.take (dl + 3 + ws2.length + 2))
            else some (r2.take (dl + 3))
          else none
        | _ => none
      | none => none
  else none

/-- `\bby\s+(next\s+(?:monday|…|sunday))/i` (pattern 4). -/
def byNextDayAt (prev : Option Char) (s : Chars) : Option Chars :=
  if lboundB prev && startsWithCi s (cs "by") then
    let r := s.drop 2
    let (ws1, r2) := spanP isWsA r
    if ws1 = [] then none
    else if startsWithCi r2 (cs "next") then
      let r3 := r2.drop 4
      let (ws2, r4) := spanP isWsA r3
      if ws2 = [] then none
      else
        match dayNamesRegexOrder.find? (fun d => startsWithCi r4 d) with
        | some d => some (r2.take (4 + ws2.length + d.length))
        | none => none
    else none
  else none

/-- `\b(this|next)\s+(week|month)/i` (pattern 7, whole match returned). -/
def thisNextAt (prev : Option Char) (s : Chars) : Option Chars :=
  if !lboundB prev then none
  else
    match ([cs "this", cs "next"].find? (fun w => startsWithCi s w)) with
    | some w =>
      let r := s.drop w.length
      let (ws1, r2) := spanP isWsA r
      if ws1 = [] then none
      else
        match ([cs "week", cs "month"].find? (fun w2 => startsWithCi r2 w2)) with
        | some w2 => some (s.take (w.length + ws1.length + w2.length))
        | none => none
    | none => none

def abbrWordsL : List Chars := [cs "eod", cs "eow", cs "eom", cs "cob", cs "asap"]

/-- `\b(eod|eow|eom|cob|asap)\b/i` (pattern 8), matched text returned. -/
def abbrAt (prev : Option Char) (s : Chars) : Option Chars :=
  match bWordAt abbrWordsL prev s with
  | some p => some (s.take p.length)
  | none => none

/-- `\bend of (day|week|month)\b/i` (pattern 9, whole match returned). -/
def endOfAt (prev : Option Char) (s : Chars) : Option Chars :=
  if lboundB prev && startsWithCi s (cs "end of ") then
    let r := s.drop 7
    match ([cs "day", cs "week", cs "month"].find? (fun w => startsWithCi r w)) with
    | some w => if rboundB (r.drop w.length) then some (s.take (7 + w.length)) else none
    | none => none
  else none

/-- `extractDateString` (lines 427–462): the patterns in source order,
the first one that matches anywhere wins. -/
def extractDateString (text : Chars) : Chars :=
  match scanFirstB byTimeAt none text with
  | some r => trimWs r
  | none =>
  match scanFirstB byClockAt none text with
  | some r => trimWs r
  | none =>
  match scanFirstB (leadAltAt (cs "by") dayWordsL) none text with
  | some r => trimWs r
  | none =>
  match scanFirstB byNextDayAt none text with
  | some r => trimWs r
  | none =>
  match scanFirstB (leadAltAt (cs "due") dayWordsL) none text with
  | some r => trimWs r
  | none =>
  match scanFirstB (leadAltAt (cs "on") dayNamesRegexOrder) none text with
  | some r => trimWs r
  | none =>
  match scanFirstB thisNextAt none text with
  | some r => trimWs r
  | none =>
  match scanFirstB abbrAt none text with
  | some r => trimWs r
  | none =>
  match scanFirstB endOfAt none text with
  | some r => trimWs r
  | none => []

/-- Word-boundary test `/\b<word>\b/i` on a string. -/
def bTest1 (w : Chars) (s : Chars) : Bool := bWordTest [w] s

/-- `new Date(year, month, 0)` (the last-day-of-previous-month idiom),
with the constructor's 00:00:00.000 time. -/
def jsNewDateMonthDay0 (y : Int) (m : Int) : JSDate :=
  let y' : Int := y + m / 12
  let mo' : Nat := (m % 12).toNat
  let x := setDayOfMonth 0 y' mo'
  ⟨x.y, x.mo, x.d, 0, 0, 0, 0⟩

/-- First weekday name occurring in the string (`match(/\b?(monday|…)/i)`
of the day-of-week branch — the source pattern has `\b` on both sides),
as its index in the `['sunday',…]` array. -/
def firstWeekdayIdx (s : Chars) : Option Nat :=
  match scanFirstB (bWordAt dayNamesRegexOrder) none s with
  | some d => some (dayNamesL.findIdx (fun n => n = d))
  | none => none

/-- The trailing time pattern of `extractDueDate`
(`/(\d{1,2}):?(\d{2})?\s*(am|pm)?/i`, line 403): hour digits, an optional
bare colon, optional two minute digits, optional am/pm. -/
def duePatTime (s : Chars) : Option (Nat × Nat × Option Bool) :=
  scanFirst at1 s
where
  at1 (r : Chars) : Option (Nat × Nat × Option Bool) :=
    match (pD2 r).map (fun q => (q.1, 2)) <|> (pD1 r).map (fun q => (q.1, 1)) with
    | some (h, dl) =>
      let r2 := r.drop dl
      let r3 := match r2 with
        | ':' :: rr => rr
        | _ => r2
      let (mm, r4) := match pD2 r3 with
        | some (v, rr) => (some v, rr)
        | none => (none, r3)
      let r5 := r4.dropWhile isWsA
      let ap : Option Bool :=
        if startsWithCi r5 (cs "pm") then some true
        else if startsWithCi r5 (cs "am") then some false
        else none
      some (h, mm.getD 0, ap)
    | none => none

/-- `extractDueDate` of `meetingMinutesParser.ts` (lines 313–420). -/
def extractDueDate (text : Chars) (now : JSDate) : Chars :=
  let ds := extractDateString text
  if ds = [] then []
  else
    let d1 : JSDate :=
      if bTest1 (cs "tomorrow") ds then jsAddDays 1 now
      else if bTest1 (cs "tonight") ds then jsSetHours 20 0 now
      else if bTest1 (cs "today") ds then now
      else if bWordTest [cs "next week"] ds then jsAddDays 7 now
      else if bWordTest [cs "this week"] ds then
        let wd := weekdayOf now.dateOnly
        jsAddDays (if wd ≤ 5 then (5 - wd : Int) else 6) now
      else if (scanFirstB endOfAt none ds).isSome then
        match scanFirstB endOfAt none ds with
        | some m =>
          if startsWithCi (m.drop 7) (cs "day") then jsSetHours 17 0 now
          else if startsWithCi (m.drop 7) (cs "week") then
            let wd := weekdayOf now.dateOnly
            jsSetHours 17 0 (jsAddDays (if wd ≤ 5 then (5 - wd : Int) else 6) now)
          else jsSetHours 17 0 (jsNewDateMonthDay0 now.y ((now.mo : Int) + 1))
        | none => now
      else if (scanFirstB (bWordAt [cs "eod", cs "eow", cs "eom", cs "cob"]) none ds).isSome then
        match scanFirstB (bWordAt [cs "eod", cs "eow", cs "eom", cs "cob"]) none ds with
        | some ab =>
          if ab = cs "eod" || ab = cs "cob" then jsSetHours 17 0 now
          else if ab = cs "eow" then
            let wd := weekdayOf now.dateOnly
            jsSetHours 17 0 (jsAddDays (if wd ≤ 5 then (5 - wd : Int) else 6) now)
          else jsSetHours 17 0 (jsNewDateMonthDay0 now.y ((now.mo : Int) + 1))
        | none => now
      else
        match firstWeekdayIdx ds with
        | some target =>
          let wd := weekdayOf now.dateOnly
          let diff : Int := (target : Int) - (wd : Int)
          jsAddDays (if diff ≤ 0 then diff + 7 else diff) now
        | none => now
    let d2 : JSDate :=
      match duePatTime ds with
      | some (h, mm, ap) =>
        let h1 := if ap = some true && h < 12 then h + 12 else h
        let h2 := if ap = some false && h1 = 12 then 0 else h1
        jsSetHours h2 mm d1
      | none => d1
    toIsoChars d2

def priorityChars : Priority → Chars
  | .P1 => cs "P1"
  | .P2 => cs "P2"
  | .P3 => cs "P3"
  | .P4 => cs "P4"

/-- One iteration of the segment loop of `parseMultipleTasks`
(lines 19–57): gate, per-field extraction, reassembly, re-parse, assignee
injection, and the non-empty-title filter.  The local pipeline raises no
exceptions, so the segment-level `catch` has no effect in the model. -/
def processSegment (segment : Chars) (now : JSDate) : Option ParsedTask :=
  if trimWs segment = [] then none
  else if containsTaskAssignment segment then
    let assignee := extractAssignee segment
    let taskDescription := extractTaskDescription segment assignee
    let dueDate := extractDueDate segment now
    let priority := extractPriority segment
    let structuredSentence :=
      createStructuredSentence taskDescription assignee dueDate (priorityChars priority)
    let parsedTask := parseNaturalLanguage structuredSentence now
    let parsedTask' :=
      if assignee ≠ [] && parsedTask.assignee = [] then
        { parsedTask with assignee := assignee }
      else parsedTask
    if parsedTask'.title ≠ [] then some parsedTask' else none
  else none

/-- `parseMultipleTasks` of `meetingMinutesParser.ts` (lines 9–60). -/
def parseMultipleTasks (text : Chars) (now : JSDate) : List ParsedTask :=
  (splitSegs (preprocessText text)).filterMap (fun seg => processSegment seg now)

/-! ## Embedding of `openaiService.ts` (response post-processing) and the
orchestrating components -/

/-- One element of the model's `tasks` array after JSON parsing, as the
`map` callback of `parseMultipleTasksWithAI` (lines 141–173) sees it.
`dueDateParsed` is the value of `new Date(task.dueDate)`: `none` models an
Invalid Date (a missing or unparseable `task.dueDate` — `new Date` itself
never throws, so the surrounding `catch (dateError)` can never run).
Falsy strings are modelled as `[]`, the priority as already
schema-checked. -/
structure RawAITask where
  title : Chars
  assignee : Chars
  dueDateParsed : Option JSDate
  priority : Option Priority
  dueDateFormatted : Chars
  dueTimeFormatted : Option Chars
  priorityText : Chars
  context : Chars
  deriving Repr, DecidableEq

/-- The body of the `map` callback: on a valid date, one year is added if
it lies in the past; on an Invalid Date the `<` comparison and the `isNaN`
guard are both false, no correction happens, and `toISOString()` throws a
`RangeError` that escapes the whole `map`. -/
def processAITask (now : JSDate) (task : RawAITask) : Except Chars ParsedTask :=
  match task.dueDateParsed with
  | some d =>
    let d' := if ltT d now then jsSetFullYear (d.y + 1) d else d
    .ok { title := if task.title ≠ [] then task.title else cs "Untitled Task"
          assignee := task.assignee
          dueDate := toIsoChars d'
          priority := task.priority.getD Priority.P3
          dueDateFormatted :=
            if task.dueDateFormatted ≠ [] then task.dueDateFormatted else cs "Tomorrow"
          dueTimeFormatted := task.dueTimeFormatted
          timeSpecified := task.dueTimeFormatted.isSome
          priorityText := if task.priorityText ≠ [] then task.priorityText else cs "Medium"
          priorityReason := []
          context := task.context }
  | none => .error (cs "RangeError: Invalid time value")

/-- The post-processing of `parseMultipleTasksWithAI` over the whole
response list: `Array.prototype.map` aborts at the first thrown error. -/
def parseMultipleTasksWithAI (now : JSDate) (tasks : List RawAITask) :
    Except Chars (List ParsedTask) :=
  tasks.mapM (processAITask now)

/-- The UI state written by `handleParse` of `MeetingMinutesParser.tsx`. -/
structure MMParseState where
  parsedTasks : List ParsedTask
  parsingMethod : Chars
  aiError : Option Chars
  parsingSuccess : Bool
  showParsedTasks : Bool
  showApiKeyInput : Bool
  apiConnected : Option Bool
  deriving Repr, DecidableEq

def mmInitial : MMParseState := ⟨[], [], none, false, false, false, none⟩

/-- `handleParse` of `MeetingMinutesParser.tsx` (lines 106–182), with the
remote call's outcome as an explicit `Except`.  On a remote error whose
message mentions the API key / authentication, the handler re-throws
("skip fallback for API key issues"): the outer catch then stores the
error and an empty task list.  On any other remote error it falls back to
the local parser with a non-fatal warning. -/
def handleParse (transcript : Chars) (useAI hasEnvKey keyVerified : Bool)
    (remote : Except Chars (List ParsedTask)) (now : JSDate) : MMParseState :=
  if trimWs transcript = [] then mmInitial
  else if useAI && !hasEnvKey && !keyVerified then
    { mmInitial with showApiKeyInput := true }
  else if useAI then
    match remote with
    | .ok aiParsed =>
      { parsedTasks := aiParsed, parsingMethod := cs "gpt4", aiError := none,
        parsingSuccess := true, showParsedTasks := true, showApiKeyInput := false,
        apiConnected := some true }
    | .error msg =>
      if containsSub msg (cs "API key") || containsSub msg (cs "authentication") ||
          containsSub msg (cs "key") || containsSub msg (cs "auth") then
        { parsedTasks := [], parsingMethod := [], aiError := some msg,
          parsingSuccess := false, showParsedTasks := true, showApiKeyInput := true,
          apiConnected := some false }
      else
        { parsedTasks := parseMultipleTasks transcript now,
          parsingMethod := cs "local",
          aiError := some (cs "GPT-4 parsing unavailable. Using local parser instead."),
          parsingSuccess := false, showParsedTasks := true, showApiKeyInput := false,
          apiConnected := none }
  else
    { parsedTasks := parseMultipleTasks transcript now, parsingMethod := cs "local",
      aiError := none, parsingSuccess := false, showParsedTasks := true,
      showApiKeyInput := false, apiConnected := none }

/-- The debounced parse effect of `TaskInput.tsx` (lines 31–65): result
value and stored error message; every remote failure falls back to the
local parser. -/
def taskInputEffect (input : Chars) (useAI hasKey : Bool)
    (remote : Except Chars ParsedTask) (now : JSDate) :
    Option ParsedTask × Option Chars :=
  if trimWs input = [] then (none, none)
  else if useAI && hasKey then
    match remote with
    | .ok t => (some t, none)
    | .error e => (some (parseNaturalLanguage input now), some e)
  else (some (parseNaturalLanguage input now), none)

/-- The C6 scenario transcript. -/
def trC6 : Chars :=
  cs "Aman you take the landing page by 10pm tomorrow. Rajeev you take care of client follow-up by Wednesday."

/-- C2 (corrected): if the remote batch call fails with an error message
that does not mention the API key or authentication, `handleParse` falls
back to the local parser, stores a non-fatal warning and shows the local
result; and the single-task `TaskInput` effect falls back to the local
parser on every remote failure.  Remote failures whose message contains
"API key"/"authentication"/"key"/"auth" skip the fallback and leave an
empty task list (see the counterexample), so "throws for any reason" does
not hold as stated. -/
theorem c2_remote_failure_fallback (transcript : Chars) (useAI hasEnvKey keyVerified : Bool)
    (msg : Chars) (now : JSDate)
    (hne : trimWs transcript ≠ [])
    (hAI : useAI = true) (hKey : hasEnvKey = true)
    (hm1 : containsSub msg (cs "API key") = false)
    (hm2 : containsSub msg (cs "authentication") = false)
    (hm3 : containsSub msg (cs "key") = false)
    (hm4 : containsSub msg (cs "auth") = false) :
    ((handleParse transcript useAI hasEnvKey keyVerified (.error msg) now).parsedTasks
        = parseMultipleTasks transcript now
      ∧ (handleParse transcript useAI hasEnvKey keyVerified (.error msg) now).parsingMethod
        = cs "local"
      ∧ (handleParse transcript useAI hasEnvKey keyVerified (.error msg) now).aiError
        = some (cs "GPT-4 parsing unavailable. Using local parser instead.")
      ∧ (handleParse transcript useAI hasEnvKey keyVerified (.error msg) now).showParsedTasks
        = true)
    ∧ (∀ (input e : Chars), trimWs input ≠ [] →
        taskInputEffect input true true (.error e) now
          = (some (parseNaturalLanguage input now), some e)) := by
  subst hAI hKey
  constructor
  · refine ⟨?_, ?_, ?_, ?_⟩ <;>
      simp [handleParse, hne, hm1, hm2, hm3, hm4]
  · intro input e hni
    simp [taskInputEffect, hni]

set_option maxRecDepth 200000 in
/-- C2 counterexample: a remote failure whose message mentions the API key
(the message the service itself throws when no key is configured) leaves
an empty task list even though the local parser extracts two tasks from
the same transcript — a failed remote attempt can block task creation. -/
theorem c2_key_error_blocks_cex :
    (handleParse trC6 true true false
        (.error (cs "OpenAI API key not configured")) nowFri).parsedTasks = []
    ∧ (parseMultipleTasks trC6 nowFri).length = 2 := by
  constructor
  · rfl
  · decide

set_option maxRecDepth 200000 in
/-- C2 witness: the fallback theorem at the scenario transcript and a
generic network error message. -/
theorem c2_remote_failure_fallback_witness :
    (((handleParse trC6 true true false (.error (cs "network timeout")) nowFri).parsedTasks
        = parseMultipleTasks trC6 nowFri
      ∧ (handleParse trC6 true true false (.error (cs "network timeout")) nowFri).parsingMethod
        = cs "local"
      ∧ (handleParse trC6 true true false (.error (cs "network timeout")) nowFri).aiError
        = some (cs "GPT-4 parsing unavailable. Using local parser instead.")
      ∧ (handleParse trC6 true true false (.error (cs "network timeout")) nowFri).showParsedTasks
        = true)
    ∧ (∀ (input e : Chars), trimWs input ≠ [] →
        taskInputEffect input true true (.error e) nowFri
          = (some (parseNaturalLanguage input nowFri), some e))) :=
  c2_remote_failure_fallback trC6 true true false (cs "network timeout") nowFri
    (by decide) rfl rfl (by decide) (by decide) (by decide) (by decide)

/-- A well-formed response element and one with an unparseable date. -/
def aiGoodTask : RawAITask :=
  { title := cs "Review budget", assignee := cs "Aman",
    dueDateParsed := some ⟨2025, 5, 25, 10, 0, 0, 0⟩,
    priority := some Priority.P2, dueDateFormatted := cs "June 25, 2025",
    dueTimeFormatted := some (cs "10:00 AM"), priorityText := cs "High",
    context := [] }

def aiBadDateTask : RawAITask :=
  { title := cs "Call client", assignee := cs "Rajeev",
    dueDateParsed := none,
    priority := some Priority.P3, dueDateFormatted := cs "soonish",
    dueTimeFormatted := none, priorityText := cs "Medium", context := [] }

def aiNoTitleTask : RawAITask :=
  { title := [], assignee := [],
    dueDateParsed := some ⟨2025, 5, 21, 17, 0, 0, 0⟩,
    priority := none, dueDateFormatted := [],
    dueTimeFormatted := none, priorityText := [], context := [] }

/-- C4: evaluation of the batch post-processing at the claim's cases.  A
missing title or priority is indeed replaced by the safe defaults, but a
single element with a missing/unparseable `dueDate` makes the whole call
throw (`toISOString` on an Invalid Date), dropping the good elements —
the "tomorrow" repair in the `catch (dateError)` block is unreachable
because `new Date(...)` never throws. -/
theorem c4_malformed_date_fails_batch :
    parseMultipleTasksWithAI nowFri [aiGoodTask, aiBadDateTask]
        = .error (cs "RangeError: Invalid time value")
    ∧ parseMultipleTasksWithAI nowFri [aiBadDateTask, aiGoodTask]
        = .error (cs "RangeError: Invalid time value")
    ∧ (parseMultipleTasksWithAI nowFri [aiNoTitleTask]).map
        (fun l => l.map (fun t => (t.title, t.priority)))
        = .ok [(cs "Untitled Task", Priority.P3)]
    ∧ (parseMultipleTasksWithAI nowFri [aiGoodTask]).map (fun l => l.length)
        = .ok 1 := by
  refine ⟨rfl, rfl, rfl, rfl⟩

set_option maxRecDepth 200000 in
/-- C6 (corrected): the scenario transcript yields exactly two ParsedTask
entries in source order (the Aman sentence first), but both assignees are
"p", not "Aman"/"Rajeev": `extractAssignee` does find the names, yet the
reassembled sentence ends in "with P3 priority", whose "with p…" is picked
up by the single-task parser's `for|with` assignee pattern, and the
non-empty "p" blocks the injection of the extracted name. -/
theorem c6_transcript_two_tasks :
    (parseMultipleTasks trC6 nowFri).length = 2
    ∧ (parseMultipleTasks trC6 nowFri).map ParsedTask.title
        = [cs "you take the landing page assigned to Aman",
           cs "you take care of client follow-up . assigned to Rajeev"]
    ∧ (parseMultipleTasks trC6 nowFri).map ParsedTask.assignee = [cs "p", cs "p"]
    ∧ extractAssignee (cs "Aman you take the landing page by 10pm tomorrow") = cs "Aman"
    ∧ extractAssignee (cs "Rajeev you take care of client follow-up by Wednesday.")
        = cs "Rajeev" := by decide

set_option maxRecDepth 200000 in
/-- C6 counterexample: the first returned task's assignee is "p", not
"Aman" as the claim states. -/
theorem c6_assignee_cex :
    (parseMultipleTasks trC6 nowFri).map ParsedTask.assignee = [cs "p", cs "p"]
    ∧ cs "p" ≠ cs "Aman" := by decide

/-- C7 (corrected): the priority rules the code actually implements.  The
single-task parser maps an explicit `p1`–`p4` substring (no word
boundary) to that level, then urgent/asap/emergency to P1, then
important/"high priority" to P2, then "low priority"/whenever to P4, else
P3 — it does not know critical, immediately, significant, key or major.
The transcript-side `extractPriority` knows critical/immediately ("right
away" too) for P1 and significant/key/major for P2, but maps
"high priority" to P1 (not P2) and "whenever" to P3 (not P4). -/
theorem c7_priority_rules (input : Chars) (now : JSDate) :
    ((parseNaturalLanguage input now).priority
      = (match scanPTok (toLowerStr input) with
         | some k => priorityOfDigit k
         | none =>
           if containsSub (toLowerStr input) (cs "urgent") ||
               containsSub (toLowerStr input) (cs "asap") ||
               containsSub (toLowerStr input) (cs "emergency") then Priority.P1
           else if containsSub (toLowerStr input) (cs "important") ||
               containsSub (toLowerStr input) (cs "high priority") then Priority.P2
           else if containsSub (toLowerStr input) (cs "low priority") ||
               containsSub (toLowerStr input) (cs "whenever") then Priority.P4
           else Priority.P3))
    ∧ extractPriority (cs "urgent") = Priority.P1
    ∧ extractPriority (cs "critical") = Priority.P1
    ∧ extractPriority (cs "immediately") = Priority.P1
    ∧ extractPriority (cs "right away") = Priority.P1
    ∧ extractPriority (cs "important") = Priority.P2
    ∧ extractPriority (cs "significant") = Priority.P2
    ∧ extractPriority (cs "key") = Priority.P2
    ∧ extractPriority (cs "major") = Priority.P2
    ∧ extractPriority (cs "high priority") = Priority.P1
    ∧ extractPriority (cs "low priority") = Priority.P4
    ∧ extractPriority (cs "whenever") = Priority.P3
    ∧ extractPriority (cs "p2") = Priority.P2
    ∧ extractPriority (cs "priority 4") = Priority.P4
    ∧ extractPriority (cs "nothing special") = Priority.P3 := by
  refine ⟨rfl, ?_⟩
  decide

/-- C7 counterexample: "critical" yields P3 (not P1) from the single-task
parser, and "high priority" yields P1 (not P2) from `extractPriority`, so
the claimed uniform rule set is false as stated. -/
theorem c7_word_lists_cex :
    (parseNaturalLanguage (cs "critical fix") nowFri).priority = Priority.P3
    ∧ Priority.P3 ≠ Priority.P1
    ∧ extractPriority (cs "high priority") = Priority.P1
    ∧ Priority.P1 ≠ Priority.P2 := by decide

set_option maxRecDepth 400000 in
/-- C8 (corrected): the date forms each resolver actually recognizes, and
the precedence it actually applies, evaluated at the Friday reference
time (2025-06-20).  The single-task resolver knows tomorrow/today/next
week, the month-name forms, MM/DD and weekday names — with precedence
relative words > month-name forms > MM/DD > weekday names (weekday last,
not above the absolute forms).  The transcript resolver knows
tomorrow/tonight/today/next week/this week, end-of-period markers, the
eod/eow/eom/cob abbreviations and weekday names (no absolute forms), with
the pattern order of `extractDateString` deciding among them. -/
theorem c8_date_forms :
    (nlpDueDate (cs "x tomorrow") nowFri).1.dateOnly = ⟨2025, 5, 21⟩
    ∧ (nlpDueDate (cs "x today") nowFri).1.dateOnly = ⟨2025, 5, 20⟩
    ∧ (nlpDueDate (cs "x next week") nowFri).1.dateOnly = ⟨2025, 5, 27⟩
    ∧ (nlpDueDate (cs "x 24th june") nowFri).1.dateOnly = ⟨2025, 5, 24⟩
    ∧ (nlpDueDate (cs "x june 24") nowFri).1.dateOnly = ⟨2025, 5, 24⟩
    ∧ (nlpDueDate (cs "x 6/24") nowFri).1.dateOnly = ⟨2025, 5, 24⟩
    ∧ (nlpDueDate (cs "x monday") nowFri).1.dateOnly = ⟨2025, 5, 23⟩
    ∧ (nlpDueDate (cs "x tomorrow 6/24") nowFri).1.dateOnly = ⟨2025, 5, 21⟩
    ∧ (nlpDueDate (cs "x 24th june 6/26") nowFri).1.dateOnly = ⟨2025, 5, 24⟩
    ∧ (nlpDueDate (cs "x 6/24 monday") nowFri).1.dateOnly = ⟨2025, 5, 24⟩
    ∧ extractDueDate (cs "x by tomorrow") nowFri = cs "2025-06-21T12:00:00.000Z"
    ∧ extractDueDate (cs "x by tonight") nowFri = cs "2025-06-20T20:00:00.000Z"
    ∧ extractDueDate (cs "x due today") nowFri = cs "2025-06-20T12:00:00.000Z"
    ∧ extractDueDate (cs "x this week") nowFri = cs "2025-06-20T12:00:00.000Z"
    ∧ extractDueDate (cs "x by eod") nowFri = cs "2025-06-20T17:00:00.000Z"
    ∧ extractDueDate (cs "x by end of month") nowFri = cs "2025-06-30T17:00:00.000Z"
    ∧ extractDueDate (cs "x by Wednesday") nowFri = cs "2025-06-25T12:00:00.000Z"
    ∧ extractDueDate (cs "x eod by tomorrow") nowFri = cs "2025-06-21T12:00:00.000Z" := by
  decide

set_option maxRecDepth 400000 in
/-- C8 counterexample: "tonight" and "eod" leave the single-task
resolver's due date identical to the no-date default (they are not
recognized), MM/DD is not recognized by the transcript resolver (empty
result), and "6/24 monday" resolves to June 24, not to the next Monday
June 23 — so neither resolver recognizes all listed forms, and weekday
names do not take precedence over absolute forms. -/
theorem c8_missing_forms_cex :
    (nlpDueDate (cs "fix tonight") nowFri).1 = (nlpDueDate (cs "fix") nowFri).1
    ∧ (nlpDueDate (cs "fix eod") nowFri).1 = (nlpDueDate (cs "fix") nowFri).1
    ∧ extractDueDate (cs "finish by 6/24") nowFri = []
    ∧ (nlpDueDate (cs "x 6/24 monday") nowFri).1.dateOnly = ⟨2025, 5, 24⟩
    ∧ (⟨2025, 5, 24⟩ : DateOnly) ≠ ⟨2025, 5, 23⟩ := by decide
